import Mathlib

/-!
Verification development for the Nertz turn-resolution engine
(`nertz/models/cards.py`, `nertz/core/deck.py`, `nertz/core/foundation.py`,
`nertz/models/game.py`, `nertz/engine/*.py`).

Lists model Python lists with the *end* of the list as the top of a pile
(`append` pushes on top, `pop()` pops the top, `pop(0)` pops the bottom).
Python `float` arithmetic is modelled with exact rationals; positions on the
table are abstracted to a distance oracle, since every claim treats distances
parametrically.
-/

namespace Nertz

/-- Suits, in the order of the `SUITS` list in `nertz/models/cards.py`. -/
inductive Suit
  | spades | clubs | hearts | diamonds
  deriving DecidableEq

/-- Ranks, in the order of the `RANKS` list in `nertz/models/cards.py`. -/
inductive Rank
  | A | r2 | r3 | r4 | r5 | r6 | r7 | r8 | r9 | r10 | J | Q | K
  deriving DecidableEq

/-- `RANKS.index`: the position of a rank in the fixed rank order. -/
def rankIndex : Rank → Nat
  | .A => 0 | .r2 => 1 | .r3 => 2 | .r4 => 3 | .r5 => 4 | .r6 => 5 | .r7 => 6
  | .r8 => 7 | .r9 => 8 | .r10 => 9 | .J => 10 | .Q => 11 | .K => 12

/-- Name of a suit as used inside foundation identifier strings. -/
def suitName : Suit → String
  | .spades => "spades" | .clubs => "clubs" | .hearts => "hearts" | .diamonds => "diamonds"

/-- `PlayingCard` from `nertz/models/cards.py`: an immutable value of
suit, rank and owning player index. -/
structure PlayingCard where
  suit : Suit
  rank : Rank
  player_index : Nat
  deriving DecidableEq

/-- `PlayingCard.equals`: full-field identity comparison (suit, rank, owner).
On this structure it coincides with structural equality. -/
def PlayingCard.equals (c₁ c₂ : PlayingCard) : Bool :=
  c₁.suit = c₂.suit ∧ c₁.rank = c₂.rank ∧ c₁.player_index = c₂.player_index

/-- `_next_rank` (`simulator.py` / `move_generator.py`): successor in the
`RANKS` order.  The Python code returns the empty string after `K`, which no
rank ever equals; `none` plays that role here. -/
def nextRank : Rank → Option Rank
  | .A => some .r2 | .r2 => some .r3 | .r3 => some .r4 | .r4 => some .r5
  | .r5 => some .r6 | .r6 => some .r7 | .r7 => some .r8 | .r8 => some .r9
  | .r9 => some .r10 | .r10 => some .J | .J => some .Q | .Q => some .K
  | .K => none

/-- Membership in `RED_SUITS` (`nertz/engine/constants.py`). -/
def isRed : Suit → Bool
  | .hearts => true | .diamonds => true | .spades => false | .clubs => false

/-- `_is_valid_solitaire_move`: the source card may be placed on the
destination card iff the colors differ and the source rank is exactly one
step below the destination rank.  Both the simulator's two-branch version
and `MoveGenerator`'s opposite-color version compute this. -/
def isValidSolitaireMove (source dest : PlayingCard) : Bool :=
  isRed source.suit ≠ isRed dest.suit ∧ nextRank source.rank = some dest.rank

/-- The five piles of `DeckManager` (`nertz/core/deck.py`) owned by one
player.  The Python lists are typed `List[Optional[PlayingCard]]`, but the
`None` entries are only the pre-deal placeholders of the nertz pile; after
`deal_starting_hand` every entry is a card, so the pile contents are
modelled as plain card lists (the accessors that look at `None` entries are
modelled separately below, over `List (Option PlayingCard)`). -/
structure DeckManager where
  player_index : Nat
  cards_in_deck : List PlayingCard
  cards_in_stream : List PlayingCard
  cards_in_river : List (List PlayingCard)
  cards_in_nertz : List PlayingCard
  cards_in_lake : List PlayingCard
  deriving DecidableEq

/-- `deal_card`: pop the last element of `cards_in_deck`; error when empty. -/
def dealCard (deck : List PlayingCard) : Except String (PlayingCard × List PlayingCard) :=
  match deck.getLast? with
  | some c => .ok (c, deck.dropLast)
  | none => .error "No cards left in deck"

/-- One iteration of the flip loop in `flip__into_stream`: move the top deck
card to the top of the stream when the deck is non-empty. -/
def flipOnce (d : DeckManager) : DeckManager :=
  match d.cards_in_deck.getLast? with
  | some c =>
      { d with cards_in_deck := d.cards_in_deck.dropLast
               cards_in_stream := d.cards_in_stream ++ [c] }
  | none => d

/-- `flip__into_stream` (`nertz/core/deck.py`): when the deck is empty the
whole stream is recycled back into the deck, then up to three cards move one
at a time from the top of the deck to the top of the stream. -/
def flipIntoStream (d : DeckManager) : DeckManager :=
  let d₀ :=
    if d.cards_in_deck = [] then
      { d with cards_in_deck := d.cards_in_stream, cards_in_stream := [] }
    else d
  flipOnce (flipOnce (flipOnce d₀))

/-- `top_nertz_card` as written in `deck.py`: scan the nertz pile from the
top down for the first entry that is not `None`. -/
def topNertzCardOpt (nertz : List (Option PlayingCard)) : Option PlayingCard :=
  ((nertz.reverse.find? fun c => c.isSome).join)

/-- `top_stream_cards(count)` (`deck.py`): raises when the stream holds
fewer than `count` cards, otherwise returns the slice `stream[-count:]`
(in pile order) with `None` entries dropped.  Python's negative slice is
the last `count` entries when `count > 0`, but `stream[-0:]` is
`stream[0:]`: at `count = 0` the whole stream comes back, not the top 0
cards. -/
def topStreamCards (count : Nat) (stream : List (Option PlayingCard)) :
    Except String (List PlayingCard) :=
  if stream.length < count then .error "Not enough cards in stream"
  else .ok ((if count = 0 then stream
             else stream.drop (stream.length - count)).filterMap id)

/-- `river_slot_top_cards` (`deck.py`): the top entry of each river slot,
`None` for an empty slot. -/
def riverSlotTopCards (river : List (List (Option PlayingCard))) :
    List (Option PlayingCard) :=
  river.map fun slot => slot.getLast?.join

/-- `top_nertz_card` over the post-deal (`None`-free) nertz pile. -/
def topNertzCard (nertz : List PlayingCard) : Option PlayingCard :=
  topNertzCardOpt (nertz.map some)

/-- `Foundation` (`nertz/core/foundation.py`): a shared suit-pure pile. -/
structure Foundation where
  suit : Suit
  cards : List PlayingCard
  player_index : Nat
  identifier : String
  deriving DecidableEq

/-- Identifier format `foundation_[PINDEX]_[SUIT]`. -/
def foundationIdString (player_index : Nat) (suit : Suit) : String :=
  "foundation_" ++ toString player_index ++ "_" ++ suitName suit

/-- `Foundation.__init__`: fixes the suit from the seed card and the
identifier from `(owner, suit)`.  The constructor's Ace check is guaranteed
by every caller in the engine (only Ace moves reach it), so it is a plain
constructor here. -/
def mkFoundation (card : PlayingCard) (player_index : Nat) : Foundation :=
  { suit := card.suit
    cards := [card]
    player_index := player_index
    identifier := foundationIdString player_index card.suit }

/-- `Foundation.top()`: the last element, `none` on an empty pile (which
cannot occur post-construction; Python would raise there). -/
def Foundation.topCard (f : Foundation) : Option PlayingCard :=
  f.cards.getLast?

/-- `Foundation.add_card`: append without re-validating adjacency. -/
def Foundation.addCard (f : Foundation) (card : PlayingCard) : Foundation :=
  { f with cards := f.cards ++ [card] }

/-- `PlayerState` (`nertz/models/game.py`). -/
structure PlayerState where
  player_index : Nat
  score : Int
  deck : DeckManager
  deriving DecidableEq

/-- `GameState` (`nertz/models/game.py`).  The foundations dict is an
insertion-ordered association list, matching Python dict iteration order.
The spatial `Table` is abstracted to its distance oracle `dist`: `dist p
fid` is the Euclidean distance from player `p`'s fixed position to the
placed position of foundation `fid` (every claim treats these distances
parametrically, and player-to-river distances are 0 in the code). -/
structure GameState where
  player_count : Nat
  players : List PlayerState
  foundations : List (String × Foundation)
  dist : Nat → String → ℚ

/-- Read of `foundations[fid]` / `foundations.get(fid)`: first binding. -/
def lookupFoundation (fs : List (String × Foundation)) (fid : String) :
    Option Foundation :=
  (fs.find? fun p => p.1 = fid).map Prod.snd

/-- Python dict assignment to an existing key: replace the first binding,
keeping its position. -/
def updateFoundation (fs : List (String × Foundation)) (fid : String)
    (f : Foundation) : List (String × Foundation) :=
  match fs with
  | [] => []
  | (k, v) :: rest =>
      if k = fid then (k, f) :: rest else (k, v) :: updateFoundation rest fid f

/-- Modelled from the spec: `GameState.create_foundation` is called by both
executors (`simulator.py:308`, `move_executor.py:69`) but is absent from
`nertz/models/game.py`.  Per spec §3/§4.2 it constructs a `Foundation` from
the played Ace — suit fixed from the card, identifier from `(owner, suit)` —
and registers it in the shared foundations dict under its identifier
(dict assignment: replace the binding when the key exists, else append). -/
def createFoundation (gs : GameState) (card : PlayingCard) (player_index : Nat) :
    GameState :=
  let f := mkFoundation card player_index
  { gs with
    foundations :=
      if (lookupFoundation gs.foundations f.identifier).isSome then
        updateFoundation gs.foundations f.identifier f
      else gs.foundations ++ [(f.identifier, f)] }

/-- `MoveType` (`nertz/engine/constants.py`). -/
inductive MoveType
  | NERTZ_TO_FOUNDATION | RIVER_TO_FOUNDATION | DECK_TO_FOUNDATION
  | DECK_TO_RIVER | NERTZ_TO_RIVER | RIVER_TO_RIVER | DECK_TO_DECK
  deriving DecidableEq

/-- `LocationType` (`nertz/engine/constants.py`). -/
inductive LocationType
  | NertzPile | RiverPile | DeckPile | FoundationPile
  deriving DecidableEq

/-- `MOVE_TYPE_WEIGHTS` (`nertz/engine/constants.py`). -/
def MOVE_TYPE_WEIGHTS : List (MoveType × ℚ) :=
  [(.NERTZ_TO_FOUNDATION, 1), (.NERTZ_TO_RIVER, 9/10),
   (.RIVER_TO_FOUNDATION, 1/2), (.DECK_TO_FOUNDATION, 2/5),
   (.DECK_TO_RIVER, 3/10), (.RIVER_TO_RIVER, 3/10),
   (.DECK_TO_DECK, 1/10)]

/-- `MOVE_TYPE_WEIGHTS.get(move_type, 0.5)`. -/
def moveTypeWeight (mt : MoveType) : ℚ :=
  (((MOVE_TYPE_WEIGHTS.find? fun p => p.1 = mt).map Prod.snd)).getD (1/2)

/-- `Move` (`nertz/engine/move.py` / `simulator.py`): the value object for
one candidate state transition.  `priority` is the value `__post_init__`
computes; moves are only built through `mkMove` below, which fills it in.
The Python object also carries a reference to the game state (or a
`MoveContext` snapshot) purely for that computation, so it is not a field
here. -/
structure Move where
  player_index : Nat
  source_pile : LocationType
  destination_pile : LocationType
  card : Option PlayingCard
  distance : ℚ
  move_type : MoveType
  foundation_identifier : Option String
  river_slot_source : Option Nat
  river_slot_destination : Option Nat
  priority : ℚ
  deriving DecidableEq

/-- `_calculate_strategic_bonus` (`move.py:124` / `simulator.py:92`): a
bonus only for nertz→foundation moves, scaled by rank, and only when no
other foundation of the card's suit is in play. -/
def strategicBonus (foundations : List (String × Foundation))
    (source_pile destination_pile : LocationType) (card : Option PlayingCard)
    (foundation_identifier : Option String) : ℚ :=
  match card with
  | none => 0
  | some c =>
      if source_pile = .NertzPile then
        if destination_pile = .FoundationPile then
          if foundations.any fun p =>
              p.2.suit = c.suit ∧ some p.2.identifier ≠ foundation_identifier
          then 0
          else ((rankIndex c.rank : ℚ) + 1) / 13 * 20
        else 0
      else 0

/-- Priority computation from `__post_init__`:
`base_weight * (1 - distance * 0.3) + strategic_bonus`. -/
def calculatePriority (foundations : List (String × Foundation))
    (source_pile destination_pile : LocationType) (card : Option PlayingCard)
    (distance : ℚ) (move_type : MoveType)
    (foundation_identifier : Option String) : ℚ :=
  moveTypeWeight move_type * (1 - distance * (3/10)) +
    strategicBonus foundations source_pile destination_pile card
      foundation_identifier

/-- Move construction: the dataclass plus the `__post_init__` priority
computation.  (The `__post_init__` field validations hold for every move
the generator builds; they are stated separately where a claim needs
them.) -/
def mkMove (foundations : List (String × Foundation)) (player_index : Nat)
    (source_pile destination_pile : LocationType) (card : Option PlayingCard)
    (distance : ℚ) (move_type : MoveType)
    (foundation_identifier : Option String)
    (river_slot_source : Option Nat)
    (river_slot_destination : Option Nat) : Move :=
  { player_index := player_index
    source_pile := source_pile
    destination_pile := destination_pile
    card := card
    distance := distance
    move_type := move_type
    foundation_identifier := foundation_identifier
    river_slot_source := river_slot_source
    river_slot_destination := river_slot_destination
    priority := calculatePriority foundations source_pile destination_pile
      card distance move_type foundation_identifier }

/-- Read of `game_state.players[p]`; Python raises `IndexError` outside the
range. -/
def getPlayer (gs : GameState) (p : Nat) : Except String PlayerState :=
  match gs.players.get? p with
  | some pl => .ok pl
  | none => .error "player index out of range"

/-- Loop test of `generate_river_move` for slot `i`: the slot is empty, or
its top card accepts `card` by solitaire adjacency.  (The river list always
holds exactly 4 slots after dealing; a shorter list would raise
`IndexError` in Python.) -/
def riverSlotQualifies (river : List (List PlayingCard)) (card : PlayingCard)
    (i : Nat) : Bool :=
  match (river.getD i []).getLast? with
  | none => true
  | some top => isValidSolitaireMove card top

/-- `generate_river_move` (`simulator.py:365` / `move_generator.py:50`):
scan the player's four river slots in ascending index order and build a
move into the first qualifying slot; `none` when no slot qualifies.  The
player-to-river distance is `distance_between(pos, pos) = 0.0`. -/
def generateRiverMove (gs : GameState) (player_index : Nat)
    (card : PlayingCard) (source_pile : LocationType) :
    Except String (Option Move) :=
  if source_pile = .RiverPile then
    .error "Do not use this method for river to river moves."
  else
    match getPlayer gs player_index with
    | .error e => .error e
    | .ok pl =>
        .ok (((List.range 4).find?
            (riverSlotQualifies pl.deck.cards_in_river card)).map
          fun i => mkMove gs.foundations player_index source_pile .RiverPile
            (some card) 0
            (if source_pile = .DeckPile then MoveType.DECK_TO_RIVER
             else MoveType.NERTZ_TO_RIVER) none none (some i))

/-- `generate_foundation_move` (`simulator.py:399` / `move_generator.py:92`):
an Ace always starts a new foundation (whose spatial placement is sampled as
a side effect of generation; positions are abstracted by the `dist`
oracle); otherwise the first foundation, in dict insertion order, whose suit
matches and whose top card is exactly one rank below. -/
def generateFoundationMove (gs : GameState) (player_index : Nat)
    (card : PlayingCard) (source_pile : LocationType)
    (river_slot_source : Option Nat) : Except String (Option Move) :=
  match (match source_pile with
         | .NertzPile => some MoveType.NERTZ_TO_FOUNDATION
         | .RiverPile => some MoveType.RIVER_TO_FOUNDATION
         | .DeckPile => some MoveType.DECK_TO_FOUNDATION
         | .FoundationPile => none) with
  | none => .error "Unsupported source_pile for foundation move"
  | some mt =>
      if card.rank = .A then
        .ok (some (mkMove gs.foundations player_index source_pile
          .FoundationPile (some card)
          (gs.dist player_index (foundationIdString player_index card.suit))
          mt (some (foundationIdString player_index card.suit))
          river_slot_source none))
      else
        .ok <|
          (gs.foundations.find? fun q =>
              card.suit = q.2.suit ∧
                (match q.2.topCard with
                 | some t => nextRank t.rank = some card.rank
                 | none => false : Bool)).map
            fun q => mkMove gs.foundations player_index source_pile
              .FoundationPile (some card)
              (gs.dist player_index q.2.identifier) mt
              (some q.2.identifier) river_slot_source none

/-- `generate_stream_flip_move` (`simulator.py:444`): always produced, with
no card and distance 0. -/
def generateStreamFlipMove (gs : GameState) (player_index : Nat) : Move :=
  mkMove gs.foundations player_index .DeckPile .DeckPile none 0
    .DECK_TO_DECK none none none

/-- `_add_nertz_moves` (`simulator.py:473`): the single top nertz card is
tried against a foundation first, then the river; at most one move. -/
def addNertzMoves (gs : GameState) (p : Nat) : Except String (List Move) := do
  let pl ← getPlayer gs p
  if pl.deck.cards_in_nertz = [] then pure []
  else
    match topNertzCard pl.deck.cards_in_nertz with
    | none => pure []
    | some nc => do
        let fm ← generateFoundationMove gs p nc .NertzPile none
        match fm with
        | some m => pure [m]
        | none => do
            let rm ← generateRiverMove gs p nc .NertzPile
            match rm with
            | some m => pure [m]
            | none => pure []

/-- `_add_river_to_foundation_moves` (`simulator.py:490`): each slot's top
card tried against the foundations; at most one move per slot. -/
def addRiverToFoundationMoves (gs : GameState) (p : Nat) :
    Except String (List Move) := do
  let pl ← getPlayer gs p
  (List.range 4).foldlM
    (fun acc i => do
      match (pl.deck.cards_in_river.getD i []).getLast? with
      | none => pure acc
      | some rc => do
          let fm ← generateFoundationMove gs p rc .RiverPile (some i)
          pure (acc ++ fm.toList))
    []

/-- `_add_river_to_river_moves` (`simulator.py:501`): for every ordered pair
of distinct non-empty slots, a whole-pile move when the source slot's bottom
card fits on the destination slot's top card. -/
def addRiverToRiverMoves (gs : GameState) (p : Nat) :
    Except String (List Move) := do
  let pl ← getPlayer gs p
  pure <|
    (List.range 4).foldl
      (fun acc i =>
        match (pl.deck.cards_in_river.getD i []).head? with
        | none => acc
        | some sc =>
            (List.range 4).foldl
              (fun acc2 j =>
                if i = j then acc2
                else
                  match (pl.deck.cards_in_river.getD j []).getLast? with
                  | none => acc2
                  | some dc =>
                      if isValidSolitaireMove sc dc then
                        acc2 ++ [mkMove gs.foundations p .RiverPile .RiverPile
                          (some sc) 0 .RIVER_TO_RIVER none (some i) (some j)]
                      else acc2)
              acc)
      []

/-- `_add_deck_moves` as the engine runs it (`simulator.py:554`): the flip
move is always emitted, then `top_stream_cards(count=1)` is consulted for
the stream's top card — raising when the stream is empty — and that card is
tried against the river first, then the foundations.  (The dead
`MoveGenerator` class instead guards through `get_top_stream_card`, a method
absent from `deck.py`.) -/
def addDeckMoves (gs : GameState) (p : Nat) : Except String (List Move) :=
  match getPlayer gs p with
  | .error e => .error e
  | .ok pl =>
      match topStreamCards 1 (pl.deck.cards_in_stream.map some) with
      | .error e => .error e
      | .ok tops =>
          match tops.head? with
          | none => .error "list index out of range"
          | some tc =>
              match generateRiverMove gs p tc .DeckPile with
              | .error e => .error e
              | .ok (some m) => .ok [generateStreamFlipMove gs p, m]
              | .ok none =>
                  match generateFoundationMove gs p tc .DeckPile none with
                  | .error e => .error e
                  | .ok (some m) => .ok [generateStreamFlipMove gs p, m]
                  | .ok none => .ok [generateStreamFlipMove gs p]

/-- `calculate_legal_moves` (`simulator.py:459`): the four move categories,
in their fixed order. -/
def calculateLegalMoves (gs : GameState) (p : Nat) :
    Except String (List Move) := do
  let nm ← addNertzMoves gs p
  let rfm ← addRiverToFoundationMoves gs p
  let rrm ← addRiverToRiverMoves gs p
  let dm ← addDeckMoves gs p
  pure (nm ++ rfm ++ rrm ++ dm)

/-- Positional in-place update of one list element, as Python mutation of
`players[p]` / `cards_in_river[i]` behaves; out-of-range indices leave the
list unchanged (callers guard the range first where Python would raise). -/
def listModify (l : List α) (i : Nat) (f : α → α) : List α :=
  match l, i with
  | [], _ => []
  | x :: xs, 0 => f x :: xs
  | x :: xs, n + 1 => x :: listModify xs n f

/-- Mutation of `self.game_state.players[p]`. -/
def modifyPlayer (gs : GameState) (p : Nat) (f : PlayerState → PlayerState) :
    GameState :=
  { gs with players := listModify gs.players p f }

/-- Mutation of one pile inside `players[p].deck`. -/
def modifyDeck (gs : GameState) (p : Nat) (f : DeckManager → DeckManager) :
    GameState :=
  modifyPlayer gs p fun pl => { pl with deck := f pl.deck }

/-- `_remove_from_nertz` / `_remove_from_stream`
(`move_executor.py:106,119`, `simulator.py:324,330`): verify the pile's top
card is identity-equal to the move's card, then pop it. -/
def removeTopVerified (pile : List PlayingCard) (c : PlayingCard)
    (pileName : String) : Except String (List PlayingCard) :=
  match pile.getLast? with
  | some t =>
      if t.equals c then .ok pile.dropLast
      else .error ("Card mismatch at " ++ pileName)
  | none => .error ("Card mismatch at " ++ pileName)

/-- `MoveExecutor._remove_from_river` (`move_executor.py:132`): for a
river-to-river move, verify the *bottom* card and `pop(0)` it; otherwise
verify the *top* card and `pop()` it. -/
def removeFromRiver (slot : List PlayingCard) (c : PlayingCard)
    (destIsRiver : Bool) : Except String (List PlayingCard) :=
  if destIsRiver then
    match slot with
    | x :: rest =>
        if x.equals c then .ok rest
        else .error "Card mismatch at RiverPile bottom"
    | [] => .error "Card mismatch at RiverPile bottom"
  else
    match slot.getLast? with
    | some t =>
        if t.equals c then .ok slot.dropLast
        else .error "Card mismatch at RiverPile top"
    | none => .error "Card mismatch at RiverPile top"

/-- The simulator's inline river removal (`simulator.py:336-362`): for a
river-to-river move it verifies the *bottom* card (`slot[0]`) but then
calls `slot.pop()`, which removes the *top* card; otherwise verify-and-pop
the top. -/
def simRemoveFromRiver (slot : List PlayingCard) (c : PlayingCard)
    (destIsRiver : Bool) : Except String (List PlayingCard) :=
  if destIsRiver then
    match slot.head? with
    | some x =>
        if x.equals c then .ok slot.dropLast
        else .error "Bottom River card does not match the move card."
    | none => .error "Bottom River card does not match the move card."
  else
    match slot.getLast? with
    | some t =>
        if t.equals c then .ok slot.dropLast
        else .error "Top River card does not match the move card."
    | none => .error "Top River card does not match the move card."

/-- `MoveExecutor._apply_destination_effects` (`move_executor.py:58`),
including `_place_on_foundation` and `_place_on_river`: an Ace creates a new
foundation and the card is recorded in the mover's lake; a non-Ace is
appended to the referenced foundation (which must exist) and also recorded
in the lake; a river destination appends to the destination slot. -/
def applyDestinationEffects (gs : GameState) (m : Move) (c : PlayingCard) :
    Except String GameState :=
  match m.destination_pile with
  | .FoundationPile =>
      if c.rank = .A then
        let gs1 := createFoundation gs c m.player_index
        .ok (modifyDeck gs1 m.player_index fun d =>
          { d with cards_in_lake := d.cards_in_lake ++ [c] })
      else
        match m.foundation_identifier with
        | some fid =>
            match lookupFoundation gs.foundations fid with
            | some f =>
                let gs1 := { gs with
                  foundations := updateFoundation gs.foundations fid
                    (f.addCard c) }
                .ok (modifyDeck gs1 m.player_index fun d =>
                  { d with cards_in_lake := d.cards_in_lake ++ [c] })
            | none => .error ("Invalid pile: " ++ fid ++ " does not exist")
        | none => .error "Invalid pile: None does not exist"
  | .RiverPile =>
      match m.river_slot_destination with
      | none =>
          .error "River slot destination index must be specified for RiverPile moves."
      | some j =>
          match getPlayer gs m.player_index with
          | .error e => .error e
          | .ok pl =>
              if j < pl.deck.cards_in_river.length then
                .ok (modifyDeck gs m.player_index fun d =>
                  { d with cards_in_river :=
                      listModify d.cards_in_river j fun slot => slot ++ [c] })
              else .error "list index out of range"
  | .DeckPile => .ok gs
  | .NertzPile => .ok gs

/-- `MoveExecutor._apply_source_effects` (`move_executor.py:97`): remove the
card from the source pile; a source pile kind with no branch (foundations)
removes nothing. -/
def applySourceEffects (gs : GameState) (m : Move) (c : PlayingCard) :
    Except String GameState :=
  match m.source_pile with
  | .NertzPile =>
      match getPlayer gs m.player_index with
      | .error e => .error e
      | .ok pl =>
          match removeTopVerified pl.deck.cards_in_nertz c "NertzPile" with
          | .error e => .error e
          | .ok nertz1 =>
              .ok (modifyDeck gs m.player_index fun d =>
                { d with cards_in_nertz := nertz1 })
  | .DeckPile =>
      match getPlayer gs m.player_index with
      | .error e => .error e
      | .ok pl =>
          match removeTopVerified pl.deck.cards_in_stream c
              "DeckPile (stream)" with
          | .error e => .error e
          | .ok stream1 =>
              .ok (modifyDeck gs m.player_index fun d =>
                { d with cards_in_stream := stream1 })
  | .RiverPile =>
      match m.river_slot_source with
      | none =>
          .error "River slot source index must be specified for RiverPile moves."
      | some i =>
          match getPlayer gs m.player_index with
          | .error e => .error e
          | .ok pl =>
              if i < pl.deck.cards_in_river.length then
                match removeFromRiver (pl.deck.cards_in_river.getD i []) c
                    (m.destination_pile = .RiverPile) with
                | .error e => .error e
                | .ok slot1 =>
                    .ok (modifyDeck gs m.player_index fun d =>
                      { d with cards_in_river :=
                          listModify d.cards_in_river i (fun _ => slot1) })
              else .error "list index out of range"
  | .FoundationPile => .ok gs

/-- `MoveExecutor.execute` (`move_executor.py:26`): the deck-flip move only
flips; every other move applies destination effects, then source effects.
A move with no card (other than the flip) would fault in Python when its
card's fields are read, modelled as an error. -/
def executeMove (gs : GameState) (m : Move) : Except String GameState :=
  match getPlayer gs m.player_index with
  | .error e => .error e
  | .ok _ =>
      if m.move_type = .DECK_TO_DECK then
        .ok (modifyDeck gs m.player_index flipIntoStream)
      else
        match m.card with
        | none => .error "move has no card"
        | some c =>
            match applyDestinationEffects gs m c with
            | .error e => .error e
            | .ok gs1 => applySourceEffects gs1 m c

/-- The simulator's inline `_apply_destination_effects` (`simulator.py:303`):
identical to the executor class's, except that nothing is ever appended to
the mover's lake pile. -/
def simApplyDestinationEffects (gs : GameState) (m : Move) (c : PlayingCard) :
    Except String GameState :=
  match m.destination_pile with
  | .FoundationPile =>
      if c.rank = .A then .ok (createFoundation gs c m.player_index)
      else
        match m.foundation_identifier with
        | some fid =>
            match lookupFoundation gs.foundations fid with
            | some f =>
                .ok { gs with
                  foundations := updateFoundation gs.foundations fid
                    (f.addCard c) }
            | none => .error ("Foundation " ++ fid ++ " does not exist.")
        | none => .error "Foundation None does not exist."
  | .RiverPile =>
      match m.river_slot_destination with
      | none =>
          .error "River slot destination index must be specified for RiverPile moves."
      | some j => do
          let pl ← getPlayer gs m.player_index
          if j < pl.deck.cards_in_river.length then
            pure (modifyDeck gs m.player_index fun d =>
              { d with cards_in_river :=
                  listModify d.cards_in_river j fun slot => slot ++ [c] })
          else throw "list index out of range"
  | .DeckPile => .ok gs
  | .NertzPile => .ok gs

/-- The simulator's inline `_apply_source_effects` (`simulator.py:322`):
identical to the executor class's, except the river branch uses
`simRemoveFromRiver` (pop the top after verifying the bottom). -/
def simApplySourceEffects (gs : GameState) (m : Move) (c : PlayingCard) :
    Except String GameState := do
  match m.source_pile with
  | .NertzPile => do
      let pl ← getPlayer gs m.player_index
      let nertz1 ← removeTopVerified pl.deck.cards_in_nertz c
        "Top Nertz card does not match the move card."
      pure (modifyDeck gs m.player_index fun d =>
        { d with cards_in_nertz := nertz1 })
  | .DeckPile => do
      let pl ← getPlayer gs m.player_index
      let stream1 ← removeTopVerified pl.deck.cards_in_stream c
        "Top Deck stream card does not match the move card."
      pure (modifyDeck gs m.player_index fun d =>
        { d with cards_in_stream := stream1 })
  | .RiverPile =>
      match m.river_slot_source with
      | none =>
          throw "River slot source index must be specified for RiverPile moves."
      | some i => do
          let pl ← getPlayer gs m.player_index
          if i < pl.deck.cards_in_river.length then do
            let slot1 ← simRemoveFromRiver (pl.deck.cards_in_river.getD i []) c
              (m.destination_pile = .RiverPile)
            pure (modifyDeck gs m.player_index fun d =>
              { d with cards_in_river :=
                  listModify d.cards_in_river i (fun _ => slot1) })
          else throw "list index out of range"
  | .FoundationPile => pure gs

/-- `NertzEngine.execute_move` (`simulator.py:276`): the executor the live
engine runs inside `play_turn`. -/
def simExecuteMove (gs : GameState) (m : Move) : Except String GameState := do
  let _ ← getPlayer gs m.player_index
  if m.move_type = .DECK_TO_DECK then
    pure (modifyDeck gs m.player_index flipIntoStream)
  else do
    let c ← match m.card with
      | some c => pure c
      | none => throw "move has no card"
    let gs1 ← simApplyDestinationEffects gs m c
    simApplySourceEffects gs1 m c

/-- The `move.card.rank == "A"` test applied to chosen moves during conflict
resolution.  It is only reached for foundation-destination moves, which
always carry a card (a card-less move would fault in Python). -/
def moveCardIsAce (m : Move) : Bool :=
  match m.card with
  | some c => c.rank = .A
  | none => false

/-- The sort key `(-priority, distance, player_index)`, compared
lexicographically (`conflict_resolver.py:73`, `simulator.py:258`). -/
def moveKeyLE (m₁ m₂ : Move) : Bool :=
  -m₁.priority < -m₂.priority ∨
    (-m₁.priority = -m₂.priority ∧
      (m₁.distance < m₂.distance ∨
        (m₁.distance = m₂.distance ∧ m₁.player_index ≤ m₂.player_index)))

/-- Insert one element behind every already-sorted element whose key is ≤
its own; equal keys keep the earlier element first. -/
def insertKeyed (x : Move) : List Move → List Move
  | [] => [x]
  | y :: ys => if moveKeyLE y x then y :: insertKeyed x ys else x :: y :: ys

/-- Stable ascending sort by the conflict key, as Python's stable
`list.sort(key=lambda m: (-m.priority, m.distance, m.player_index))`. -/
def sortMoves (l : List Move) : List Move :=
  l.foldl (fun acc x => insertKeyed x acc) []

/-- Append a move to its foundation's group in the insertion-ordered
conflict map (`conflict_map[dest_id].append(move)`). -/
def appendToGroup (groups : List (String × List Move)) (fid : String)
    (m : Move) : List (String × List Move) :=
  match groups with
  | [] => [(fid, [m])]
  | (k, g) :: rest =>
      if k = fid then (k, g ++ [m]) :: rest
      else (k, g) :: appendToGroup rest fid m

/-- The partition loop shared by `ConflictResolver.resolve` and the inline
conflict handling in `play_turn`: non-foundation moves and Ace moves pass
through (first component, in order); the rest are grouped by target
foundation identifier in the insertion-ordered conflict map. -/
def partitionChosen (chosen : List Move) : List Move × List (String × List Move) :=
  chosen.foldl
    (fun (st : List Move × List (String × List Move)) m =>
      if m.destination_pile ≠ .FoundationPile then (st.1 ++ [m], st.2)
      else if moveCardIsAce m then (st.1 ++ [m], st.2)
      else (st.1, appendToGroup st.2 (m.foundation_identifier.getD "") m))
    ([], [])

/-- The winner of one conflict group: a single move passes through; a group
sorted by `(-priority, distance, player_index)` contributes its first
element (`_resolve_foundation_conflict`). -/
def groupWinner (g : List Move) : List Move :=
  match g with
  | [m] => [m]
  | ms =>
      match sortMoves ms with
      | w :: _ => [w]
      | [] => []

/-- `ConflictResolver.resolve` (`conflict_resolver.py:24`). -/
def resolveConflicts (chosen : List Move) : List Move :=
  let st := partitionChosen chosen
  st.1 ++ st.2.flatMap fun g => groupWinner g.2

/-- The moves that compete for foundation `fid`: foundation destination,
not an Ace, and carrying that identifier. -/
def isConflictCandidate (fid : String) (m : Move) : Bool :=
  m.destination_pile = .FoundationPile ∧ moveCardIsAce m = false ∧
    m.foundation_identifier.getD "" = fid

/-- Moves the resolver passes through untouched: destination not a
foundation, or an Ace. -/
def passesResolver (m : Move) : Bool :=
  decide (m.destination_pile ≠ .FoundationPile) || moveCardIsAce m

/-- Read of `conflict_map[fid]` (empty when the key is absent). -/
def groupOf (gl : List (String × List Move)) (fid : String) : List Move :=
  ((gl.find? fun q => q.1 = fid).map Prod.snd).getD []

/-- Well-formedness of the conflict map: keys are distinct and every group
is a non-empty list of candidates for its own key. -/
def conflictMapWF (gl : List (String × List Move)) : Prop :=
  (gl.map Prod.fst).Nodup ∧
    ∀ e ∈ gl, e.2 ≠ [] ∧ ∀ m ∈ e.2, isConflictCandidate e.1 m = true

/-- The per-player selection loop of `play_turn` (`simulator.py:192-209`):
a running maximum of `priority + distance` seeded at -1.0, improved only on
strict increase, so the first move attaining the maximum is chosen. -/
def selectBest (moves : List Move) : Option Move :=
  (moves.foldl
    (fun (st : ℚ × Option Move) m =>
      if m.priority + m.distance > st.1 then (m.priority + m.distance, some m)
      else st)
    (-1, none)).2

/-- `is_game_over` (`simulator.py:595`): true when any player's nertz pile
is empty. -/
def isGameOver (gs : GameState) : Bool :=
  gs.players.any fun pl => pl.deck.cards_in_nertz.length = 0

/-- The engine state around the shared game state (`NertzEngine`). -/
structure EngineState where
  game_state : GameState
  turn_counter : Nat

/-- `play_turn` (`simulator.py:148`): when the game is over, log a warning
and return — the state, turn counter and scores are left untouched and no
error is raised.  Otherwise: choose each player's best legal move in index
order, execute the non-conflicting (non-foundation and Ace) ones as they
are partitioned, then execute one winner per conflict group.  Errors from
generation or execution propagate unchanged (the Python turn counter would
already be incremented when they do; no claim depends on that). -/
def playTurn (es : EngineState) : Except String EngineState :=
  if isGameOver es.game_state then .ok es
  else do
    let gs := es.game_state
    let chosen ← gs.players.foldlM
      (fun acc pl => do
        let ms ← calculateLegalMoves gs pl.player_index
        pure (acc ++ (selectBest ms).toList))
      ([] : List Move)
    let st ← chosen.foldlM
      (fun (st : GameState × List (String × List Move)) m =>
        if m.destination_pile ≠ .FoundationPile then do
          let g1 ← simExecuteMove st.1 m
          pure (g1, st.2)
        else if moveCardIsAce m then do
          let g1 ← simExecuteMove st.1 m
          pure (g1, st.2)
        else
          pure (st.1, appendToGroup st.2 (m.foundation_identifier.getD "") m))
      (gs, ([] : List (String × List Move)))
    let gFinal ← st.2.foldlM
      (fun g grp =>
        match grp.2 with
        | [m] => simExecuteMove g m
        | ms =>
            match sortMoves ms with
            | w :: _ => simExecuteMove g w
            | [] => pure g)
      st.1
    pure { game_state := gFinal, turn_counter := es.turn_counter + 1 }

/-- The `RANKS` list order. -/
def RANKS_LIST : List Rank :=
  [.A, .r2, .r3, .r4, .r5, .r6, .r7, .r8, .r9, .r10, .J, .Q, .K]

/-- The `SUITS` list order. -/
def SUITS_LIST : List Suit := [.spades, .clubs, .hearts, .diamonds]

/-- `generate_new_deck` (`deck.py:37`): the 52 cards in `SUITS × RANKS`
order, owner-tagged. -/
def generateNewDeck (p : Nat) : List PlayingCard :=
  SUITS_LIST.flatMap fun s => RANKS_LIST.map fun r => ⟨s, r, p⟩

/-- `deal_starting_hand` (`deck.py:70`), parameterised by the post-`shuffle`
deck order (`random.shuffle` can produce any permutation): one card to each
of the 4 river slots, 13 cards to nertz in dealt order, then the initial
flip of 3 into the stream.  Errors only if the deck runs out (impossible on
a 52-card deck). -/
def dealStartingHand (player_index : Nat) (shuffled : List PlayingCard) :
    Except String DeckManager := do
  let (c0, s1) ← dealCard shuffled
  let (c1, s2) ← dealCard s1
  let (c2, s3) ← dealCard s2
  let (c3, s4) ← dealCard s3
  let (nertz, s5) ← (List.range 13).foldlM
    (fun (st : List PlayingCard × List PlayingCard) _ => do
      let (c, rest) ← dealCard st.2
      pure (st.1 ++ [c], rest))
    (([], s4) : List PlayingCard × List PlayingCard)
  let d : DeckManager :=
    { player_index := player_index
      cards_in_deck := s5
      cards_in_stream := []
      cards_in_river := [[c0], [c1], [c2], [c3]]
      cards_in_nertz := nertz
      cards_in_lake := [] }
  pure (flipIntoStream d)

/-- `PlayerState.__init__` (`game.py:11`): score 0 and a freshly dealt
hand. -/
def mkPlayerState (i : Nat) (shuffled : List PlayingCard) :
    Except String PlayerState := do
  let d ← dealStartingHand i shuffled
  pure { player_index := i, score := 0, deck := d }

/-- All cards in one player's piles other than the lake. -/
def deckBagExLake (d : DeckManager) : Multiset PlayingCard :=
  ↑d.cards_in_deck + ↑d.cards_in_stream + ↑d.cards_in_river.flatten +
    ↑d.cards_in_nertz

/-- All cards in one player's piles, lake included — the reading of "all of
that player's piles" in the spec's round-trip property. -/
def deckBagWithLake (d : DeckManager) : Multiset PlayingCard :=
  deckBagExLake d + ↑d.cards_in_lake

/-- All cards on all foundations. -/
def foundationsBag (fs : List (String × Foundation)) : Multiset PlayingCard :=
  (fs.map fun q => (↑q.2.cards : Multiset PlayingCard)).sum

/-- Sum of the players' non-lake pile bags. -/
def playersBag (players : List PlayerState) : Multiset PlayingCard :=
  (players.map fun pl => deckBagExLake pl.deck).sum

/-- The multiset of all cards in play, lake piles excluded. -/
def totalBagExLake (gs : GameState) : Multiset PlayingCard :=
  playersBag gs.players + foundationsBag gs.foundations

/-- The multiset of all cards in play, lake piles included. -/
def totalBagWithLake (gs : GameState) : Multiset PlayingCard :=
  (gs.players.map fun pl => deckBagWithLake pl.deck).sum +
    foundationsBag gs.foundations

/-- Placeholder player used only as a `getD` default inside lemma
statements. -/
def dfltPlayer : PlayerState :=
  { player_index := 0
    score := 0
    deck :=
      { player_index := 0
        cards_in_deck := []
        cards_in_stream := []
        cards_in_river := []
        cards_in_nertz := []
        cards_in_lake := [] } }

/-- The round-trip bag of spec §8, read literally: all of one player's
piles (lake included) plus all foundations. -/
def playerBagWithLake (gs : GameState) (p : Nat) : Multiset PlayingCard :=
  (match gs.players.get? p with
   | some pl => deckBagWithLake pl.deck
   | none => 0) + foundationsBag gs.foundations

/-- Unwrap an executor result, falling back to the input state. -/
def gsOfExcept (e : Except String GameState) (dflt : GameState) : GameState :=
  match e with
  | .ok g => g
  | .error _ => dflt

/-- Unwrap a generator result, falling back to no moves. -/
def movesOfExcept (e : Except String (List Move)) : List Move :=
  match e with
  | .ok l => l
  | .error _ => []

/-- Concrete test fixture: the Ace of spades of player 0. -/
def wAce : PlayingCard := ⟨.spades, .A, 0⟩

/-- Concrete test fixture: a player whose nertz top is `wAce` and whose
stream holds one card. -/
def wPlayer : PlayerState :=
  { player_index := 0, score := 0, deck :=
    { player_index := 0
      cards_in_deck := [⟨.clubs, .r3, 0⟩]
      cards_in_stream := [⟨.clubs, .r2, 0⟩]
      cards_in_river := [[], [], [], []]
      cards_in_nertz := [wAce]
      cards_in_lake := [] } }

/-- Concrete test fixture: a one-player state whose nertz top is `wAce`. -/
def wGS : GameState :=
  { player_count := 1
    players := [wPlayer]
    foundations := []
    dist := fun _ _ => 0 }

/-- Concrete test fixture: the nertz→foundation Ace move on `wGS`. -/
def wMove : Move :=
  mkMove [] 0 .NertzPile .FoundationPile (some wAce) 0 .NERTZ_TO_FOUNDATION
    (some "foundation_0_spades") none none

/-- Concrete test fixture: `wGS` after executing `wMove`. -/
def wGSR : GameState := gsOfExcept (executeMove wGS wMove) wGS

/-- Concrete test fixture: a state where player 0's nertz pile is empty
(the game-over trigger). -/
def goGS : GameState :=
  { player_count := 1
    players := [{ player_index := 0, score := 0, deck :=
      { player_index := 0
        cards_in_deck := []
        cards_in_stream := [⟨.clubs, .r2, 0⟩]
        cards_in_river := [[], [], [], []]
        cards_in_nertz := []
        cards_in_lake := [] } }]
    foundations := []
    dist := fun _ _ => 0 }

/-- Concrete test fixture: the engine around `goGS`, mid-game. -/
def goES : EngineState := { game_state := goGS, turn_counter := 5 }

/-- Concrete test fixture: a state whose stream is empty. -/
def esGS : GameState :=
  { player_count := 1
    players := [{ player_index := 0, score := 0, deck :=
      { player_index := 0
        cards_in_deck := [⟨.clubs, .r3, 0⟩]
        cards_in_stream := []
        cards_in_river := [[], [], [], []]
        cards_in_nertz := [⟨.diamonds, .r9, 0⟩]
        cards_in_lake := [] } }]
    foundations := []
    dist := fun _ _ => 0 }

/-- Concrete test fixture: river slot 0 holds a two-card run (bottom 5♥,
top 4♠) and slot 1's top card 6♠ accepts the 5♥, so a whole-pile
river→river move is generated. -/
def rrGS : GameState :=
  { player_count := 1
    players := [{ player_index := 0, score := 0, deck :=
      { player_index := 0
        cards_in_deck := []
        cards_in_stream := [⟨.clubs, .r2, 0⟩]
        cards_in_river := [[⟨.hearts, .r5, 0⟩, ⟨.spades, .r4, 0⟩],
          [⟨.spades, .r6, 0⟩], [], []]
        cards_in_nertz := [⟨.diamonds, .r9, 0⟩]
        cards_in_lake := [] } }]
    foundations := []
    dist := fun _ _ => 0 }

/-- Concrete test fixture: the river→river move of `rrGS`, slot 0 → slot 1,
recorded with the source slot's bottom card. -/
def rrMove : Move :=
  mkMove [] 0 .RiverPile .RiverPile (some ⟨.hearts, .r5, 0⟩) 0
    .RIVER_TO_RIVER none (some 0) (some 1)

/-- Concrete test fixture: `rrGS` after executing `rrMove` through the
`MoveExecutor`. -/
def rrGS1 : GameState := gsOfExcept (executeMove rrGS rrMove) rrGS

/-- Concrete test fixture: a possible `random.shuffle` output — the fresh
deck of player 0 with positions 0 (A♠) and 35 (10♥) exchanged, so that the
dealt nertz pile's top card is the Ace of spades. -/
def dealtOrder : List PlayingCard :=
  ((generateNewDeck 0).set 0 ⟨.hearts, .r10, 0⟩).set 35 ⟨.spades, .A, 0⟩

/-- Concrete test fixture: player 0's piles after dealing `dealtOrder`. -/
def dealtDeck : DeckManager :=
  match dealStartingHand 0 dealtOrder with
  | .ok d => d
  | .error _ => dfltPlayer.deck

/-- Concrete test fixture: the one-player game right after the deal. -/
def dealtGS : GameState :=
  { player_count := 1
    players := [{ player_index := 0, score := 0, deck := dealtDeck }]
    foundations := []
    dist := fun _ _ => 0 }

/-- Concrete test fixture: the legal moves of player 0 in `dealtGS`. -/
def dealtMoves : List Move := movesOfExcept (calculateLegalMoves dealtGS 0)

/-- Concrete test fixture: the generated nertz→foundation Ace move (the
first legal move of `dealtGS`). -/
def dealtMove : Move :=
  match dealtMoves with
  | m :: _ => m
  | [] => generateStreamFlipMove dealtGS 0

/-- Concrete test fixture: `dealtGS` after executing `dealtMove`. -/
def dealtGS1 : GameState := gsOfExcept (executeMove dealtGS dealtMove) dealtGS

/-- Concrete test fixture: a river→foundation move of player 0, distance
1/2, targeting the shared spades foundation. -/
def cfMoveA : Move :=
  mkMove [] 0 .RiverPile .FoundationPile (some ⟨.spades, .r2, 0⟩) (1/2)
    .RIVER_TO_FOUNDATION (some "foundation_0_spades") (some 0) none

/-- Concrete test fixture: a competing river→foundation move of player 1,
distance 1/4 (higher priority), targeting the same foundation. -/
def cfMoveB : Move :=
  mkMove [] 1 .RiverPile .FoundationPile (some ⟨.spades, .r2, 1⟩) (1/4)
    .RIVER_TO_FOUNDATION (some "foundation_0_spades") (some 1) none

/-- Concrete test fixture: a deck-flip move of player 2 (never conflicts). -/
def cfMoveC : Move :=
  mkMove [] 2 .DeckPile .DeckPile none 0 .DECK_TO_DECK none none none

/-- Concrete test fixture: a move with combined score 2 (selection tests). -/
def selMoveA : Move :=
  { player_index := 0
    source_pile := .NertzPile
    destination_pile := .FoundationPile
    card := some wAce
    distance := 0
    move_type := .NERTZ_TO_FOUNDATION
    foundation_identifier := some "foundation_0_spades"
    river_slot_source := none
    river_slot_destination := none
    priority := 2 }

/-- Concrete test fixture: a move with combined score 1 (selection tests). -/
def selMoveB : Move :=
  { player_index := 0
    source_pile := .DeckPile
    destination_pile := .DeckPile
    card := none
    distance := 0
    move_type := .DECK_TO_DECK
    foundation_identifier := none
    river_slot_source := none
    river_slot_destination := none
    priority := 1 }

/-- Concrete test fixture: a card to generate a river move for. -/
def c5card : PlayingCard := ⟨.diamonds, .r7, 0⟩

/-- Concrete test fixture: the river move `generate_river_move` builds on
`wGS` for `c5card` — all slots are empty, so slot 0 is chosen. -/
def wRiverMove : Move :=
  mkMove [] 0 .NertzPile .RiverPile (some c5card) 0 .NERTZ_TO_RIVER
    none none (some 0)

section Lemmas

/-- `PlayingCard.equals` agrees with structural equality. -/
theorem PlayingCard.equals_iff {c₁ c₂ : PlayingCard} :
    c₁.equals c₂ = true ↔ c₁ = c₂ := by
  cases c₁; cases c₂
  simp [PlayingCard.equals, PlayingCard.mk.injEq]

/-- A list is its `dropLast` plus its last element, as multisets. -/
theorem coe_eq_dropLast_add_getLast {l : List PlayingCard} {c : PlayingCard}
    (h : l.getLast? = some c) :
    (↑l : Multiset PlayingCard) = ↑l.dropLast + ↑[c] := by
  rw [Multiset.coe_add, Multiset.coe_eq_coe, List.dropLast_append_getLast? c h]

/-- `listModify` at a valid index changes the mapped sum by exactly the
change to the modified element. -/
theorem listModify_map_sum {α β : Type} (g : α → Multiset β) :
    ∀ (l : List α) (i : Nat) (f : α → α) (dflt : α), i < l.length →
      ((listModify l i f).map g).sum + g (l.getD i dflt) =
        (l.map g).sum + g (f (l.getD i dflt))
  | [], i, f, dflt, h => by simp at h
  | x :: xs, 0, f, dflt, _ => by
      simp [listModify, List.getD]
      abel
  | x :: xs, i + 1, f, dflt, h => by
      have ih := listModify_map_sum g xs i f dflt (by
        simpa [List.length_cons, Nat.succ_lt_succ_iff] using h)
      simp only [listModify, List.map_cons, List.sum_cons, List.getD,
        List.getElem?_cons_succ]
      have : ∀ a b c : Multiset β, a + b + c = b + c + a := by
        intro a b c; abel
      calc g x + ((listModify xs i f).map g).sum + g (xs.getD i dflt)
          = g x + (((listModify xs i f).map g).sum + g (xs.getD i dflt)) := by
            abel
        _ = g x + ((xs.map g).sum + g (f (xs.getD i dflt))) := by rw [ih]
        _ = g x + (xs.map g).sum + g (f (xs.getD i dflt)) := by abel

/-- `listModify` reads back: the modified index holds the image, others are
unchanged. -/
theorem listModify_get? {α : Type} :
    ∀ (l : List α) (i : Nat) (f : α → α) (j : Nat),
      (listModify l i f).get? j =
        if i = j then (l.get? j).map f else l.get? j
  | [], i, f, j => by simp [listModify]
  | x :: xs, 0, f, 0 => by simp [listModify]
  | x :: xs, 0, f, j + 1 => by simp [listModify]
  | x :: xs, i + 1, f, 0 => by simp [listModify]
  | x :: xs, i + 1, f, j + 1 => by
      simpa [listModify, Nat.succ_inj] using listModify_get? xs i f j

/-- `getPlayer` succeeds exactly on a valid index. -/
theorem getPlayer_ok {gs : GameState} {p : Nat} {pl : PlayerState} :
    getPlayer gs p = .ok pl ↔ gs.players.get? p = some pl := by
  unfold getPlayer
  cases h : gs.players.get? p <;> simp [h]

/-- Updating an existing key makes lookup return the new value. -/
theorem lookupFoundation_update_self {fs : List (String × Foundation)}
    {fid : String} {f : Foundation}
    (h : (lookupFoundation fs fid).isSome) :
    lookupFoundation (updateFoundation fs fid f) fid = some f := by
  induction fs with
  | nil => simp [lookupFoundation] at h
  | cons q rest ih =>
      by_cases hk : q.1 = fid
      · simp [updateFoundation, hk, lookupFoundation, List.find?]
      · simp only [lookupFoundation, List.find?] at h ⊢
        rw [updateFoundation]
        simp only [hk, if_false]
        have : (q.1 = fid : Bool) = false := by simpa using hk
        simp only [List.find?, this] at h ⊢
        exact ih h

/-- Appending a fresh binding makes lookup return it. -/
theorem lookupFoundation_append_self {fs : List (String × Foundation)}
    {fid : String} {f : Foundation}
    (h : lookupFoundation fs fid = none) :
    lookupFoundation (fs ++ [(fid, f)]) fid = some f := by
  induction fs with
  | nil => simp [lookupFoundation, List.find?]
  | cons q rest ih =>
      by_cases hk : q.1 = fid
      · simp [lookupFoundation, List.find?, hk] at h
      · have : (q.1 = fid : Bool) = false := by simpa using hk
        simp only [lookupFoundation, List.find?, this, List.cons_append] at h ⊢
        exact ih h

/-- Replacing the first binding of `fid` swaps its cards in the bag. -/
theorem foundationsBag_update {fs : List (String × Foundation)} {fid : String}
    {f f₂ : Foundation} (h : lookupFoundation fs fid = some f) :
    foundationsBag (updateFoundation fs fid f₂) + ↑f.cards =
      foundationsBag fs + ↑f₂.cards := by
  induction fs with
  | nil => simp [lookupFoundation] at h
  | cons q rest ih =>
      by_cases hk : q.1 = fid
      · have : f = q.2 := by
          simp [lookupFoundation, List.find?, hk] at h
          exact h.symm
        subst this
        simp only [updateFoundation, hk, if_true, foundationsBag,
          List.map_cons, List.sum_cons]
        abel
      · have hb : (q.1 = fid : Bool) = false := by simpa using hk
        simp only [lookupFoundation, List.find?, hb] at h
        have := ih h
        simp only [updateFoundation, hk, if_false, foundationsBag,
          List.map_cons, List.sum_cons]
        simp only [foundationsBag] at this
        calc q.2.cards + ((updateFoundation rest fid f₂).map
              fun q => (↑q.2.cards : Multiset PlayingCard)).sum + ↑f.cards
            = ↑q.2.cards + (((updateFoundation rest fid f₂).map
              fun q => (↑q.2.cards : Multiset PlayingCard)).sum + ↑f.cards) := by
              abel
          _ = ↑q.2.cards + ((rest.map
              fun q => (↑q.2.cards : Multiset PlayingCard)).sum + ↑f₂.cards) := by
              rw [this]
          _ = ↑q.2.cards + (rest.map
              fun q => (↑q.2.cards : Multiset PlayingCard)).sum + ↑f₂.cards := by
              abel

/-- Appending a binding appends its cards to the bag. -/
theorem foundationsBag_append (fs : List (String × Foundation)) (k : String)
    (f : Foundation) :
    foundationsBag (fs ++ [(k, f)]) = foundationsBag fs + ↑f.cards := by
  simp [foundationsBag]

/-- A successful verified top-pop removes exactly the move's card. -/
theorem removeTopVerified_ok {pile pile' : List PlayingCard}
    {c : PlayingCard} {n : String}
    (h : removeTopVerified pile c n = .ok pile') :
    (↑pile : Multiset PlayingCard) = ↑pile' + ↑[c] := by
  unfold removeTopVerified at h
  cases hl : pile.getLast? with
  | none => rw [hl] at h; exact absurd h (by simp)
  | some t =>
      rw [hl] at h
      by_cases he : t.equals c
      · simp only [he, if_true, Except.ok.injEq] at h
        subst h
        have : t = c := PlayingCard.equals_iff.mp he
        subst this
        exact coe_eq_dropLast_add_getLast hl
      · simp [he] at h

/-- A successful executor-class river removal removes exactly the move's
card (the bottom card for river-to-river, the top card otherwise). -/
theorem removeFromRiver_ok {slot slot' : List PlayingCard} {c : PlayingCard}
    {destIsRiver : Bool}
    (h : removeFromRiver slot c destIsRiver = .ok slot') :
    (↑slot : Multiset PlayingCard) = ↑slot' + ↑[c] := by
  unfold removeFromRiver at h
  cases destIsRiver with
  | true =>
      rw [if_pos rfl] at h
      cases slot with
      | nil => simp at h
      | cons x rest =>
          by_cases he : x.equals c
          · have hx : x = c := PlayingCard.equals_iff.mp he
            have hr : slot' = rest := by
              simp only [he, if_true, Except.ok.injEq] at h
              exact h.symm
            rw [hr, hx, Multiset.coe_add, Multiset.coe_eq_coe]
            exact (List.perm_append_singleton c rest).symm
          · simp [he] at h
  | false =>
      rw [if_neg (by simp)] at h
      cases hl : slot.getLast? with
      | none => rw [hl] at h; exact absurd h (by simp)
      | some t =>
          rw [hl] at h
          by_cases he : t.equals c
          · have ht : t = c := PlayingCard.equals_iff.mp he
            have hr : slot' = slot.dropLast := by
              simp only [he, if_true, Except.ok.injEq] at h
              exact h.symm
            rw [hr, ← ht]
            exact coe_eq_dropLast_add_getLast hl
          · simp [he] at h

/-- A single flip step keeps the deck+stream bag. -/
theorem flipOnce_bag (d : DeckManager) :
    deckBagExLake (flipOnce d) = deckBagExLake d := by
  unfold flipOnce
  cases hl : d.cards_in_deck.getLast? with
  | none => rfl
  | some c =>
      simp only [deckBagExLake]
      rw [coe_eq_dropLast_add_getLast hl]
      rw [show ((d.cards_in_stream ++ [c] : List PlayingCard) : Multiset PlayingCard)
        = ↑d.cards_in_stream + ↑[c] from (Multiset.coe_add _ _).symm]
      abel

/-- A flip step changes none of the river, nertz and lake piles. -/
theorem flipOnce_fields (d : DeckManager) :
    (flipOnce d).cards_in_river = d.cards_in_river ∧
      (flipOnce d).cards_in_nertz = d.cards_in_nertz ∧
      (flipOnce d).cards_in_lake = d.cards_in_lake := by
  unfold flipOnce
  cases d.cards_in_deck.getLast? <;> simp

/-- `flip__into_stream` keeps each player's non-lake card bag. -/
theorem flipIntoStream_bag (d : DeckManager) :
    deckBagExLake (flipIntoStream d) = deckBagExLake d := by
  unfold flipIntoStream
  by_cases h : d.cards_in_deck = []
  · simp only [h, if_true, flipOnce_bag]
    simp [deckBagExLake, h]
  · simp [h, flipOnce_bag]

/-- `flip__into_stream` changes none of the river, nertz and lake piles. -/
theorem flipIntoStream_fields (d : DeckManager) :
    (flipIntoStream d).cards_in_river = d.cards_in_river ∧
      (flipIntoStream d).cards_in_nertz = d.cards_in_nertz ∧
      (flipIntoStream d).cards_in_lake = d.cards_in_lake := by
  unfold flipIntoStream
  by_cases h : d.cards_in_deck = [] <;>
    simp [h, flipOnce_fields, (flipOnce_fields _).1, (flipOnce_fields _).2.1,
      (flipOnce_fields _).2.2]

/-- `listModify` with a map-invariant function keeps the mapped sum, at any
index. -/
theorem listModify_map_sum_congr {α β : Type} (g : α → Multiset β)
    (f : α → α) (hf : ∀ x, g (f x) = g x) :
    ∀ (l : List α) (i : Nat),
      ((listModify l i f).map g).sum = (l.map g).sum
  | [], _ => by simp [listModify]
  | x :: xs, 0 => by simp [listModify, hf]
  | x :: xs, i + 1 => by
      simp [listModify, listModify_map_sum_congr g f hf xs i]

/-- Coercion of a flattened list of lists is the sum of the coercions. -/
theorem coe_flatten {α : Type} :
    ∀ l : List (List α),
      (↑l.flatten : Multiset α) = (l.map Multiset.ofList).sum
  | [] => by simp
  | x :: xs => by
      rw [List.flatten_cons,
        show (↑(x ++ xs.flatten) : Multiset α) = ↑x + ↑xs.flatten from
          (Multiset.coe_add _ _).symm,
        coe_flatten xs, List.map_cons, List.sum_cons]

/-- A lake-only mutation of any player keeps the non-lake total bag. -/
theorem totalBag_modifyLake (gs : GameState) (p : Nat)
    (g : DeckManager → List PlayingCard) :
    totalBagExLake (modifyDeck gs p fun d =>
      { d with cards_in_lake := g d }) = totalBagExLake gs := by
  unfold totalBagExLake modifyDeck modifyPlayer playersBag
  simp only
  rw [listModify_map_sum_congr (fun pl : PlayerState => deckBagExLake pl.deck)
    (fun pl => { pl with deck :=
      { pl.deck with cards_in_lake := g pl.deck } })
    (fun x => rfl) gs.players p]

/-- Modifying one player's deck shifts the total bag by the deck-bag change. -/
theorem totalBag_modifyDeck (gs : GameState) (p : Nat)
    (f : DeckManager → DeckManager) (h : p < gs.players.length) :
    totalBagExLake (modifyDeck gs p f) +
        deckBagExLake (gs.players.getD p dfltPlayer).deck =
      totalBagExLake gs +
        deckBagExLake (f (gs.players.getD p dfltPlayer).deck) := by
  unfold totalBagExLake modifyDeck modifyPlayer playersBag
  simp only
  have := listModify_map_sum (fun pl : PlayerState => deckBagExLake pl.deck)
    gs.players p (fun pl => { pl with deck := f pl.deck }) dfltPlayer h
  calc ((listModify gs.players p fun pl => { pl with deck := f pl.deck }).map
          fun pl => deckBagExLake pl.deck).sum + foundationsBag gs.foundations +
        deckBagExLake (gs.players.getD p dfltPlayer).deck
      = ((listModify gs.players p fun pl => { pl with deck := f pl.deck }).map
          fun pl => deckBagExLake pl.deck).sum +
        deckBagExLake (gs.players.getD p dfltPlayer).deck +
        foundationsBag gs.foundations := by abel
    _ = (gs.players.map fun pl => deckBagExLake pl.deck).sum +
        deckBagExLake (f (gs.players.getD p dfltPlayer).deck) +
        foundationsBag gs.foundations := by rw [this]
    _ = (gs.players.map fun pl => deckBagExLake pl.deck).sum +
        foundationsBag gs.foundations +
        deckBagExLake (f (gs.players.getD p dfltPlayer).deck) := by abel

/-- Appending to a river slot at a valid index adds the card to the deck
bag. -/
theorem deckBag_river_append (d : DeckManager) (j : Nat) (c : PlayingCard)
    (hj : j < d.cards_in_river.length) :
    deckBagExLake
        { d with
          cards_in_river := listModify d.cards_in_river j
            (fun slot => slot ++ [c]) } =
      deckBagExLake d + ↑[c] := by
  unfold deckBagExLake
  simp only
  rw [coe_flatten, coe_flatten]
  have h := listModify_map_sum Multiset.ofList d.cards_in_river j
    (fun slot => slot ++ [c]) [] hj
  have happ : Multiset.ofList (d.cards_in_river.getD j [] ++ [c]) =
      Multiset.ofList (d.cards_in_river.getD j []) + ↑[c] :=
    (Multiset.coe_add _ _).symm
  rw [happ] at h
  have h2 : ((listModify d.cards_in_river j fun slot => slot ++ [c]).map
      Multiset.ofList).sum =
      (d.cards_in_river.map Multiset.ofList).sum + ↑[c] := by
    have h3 : ((listModify d.cards_in_river j fun slot => slot ++ [c]).map
        Multiset.ofList).sum + Multiset.ofList (d.cards_in_river.getD j []) =
        ((d.cards_in_river.map Multiset.ofList).sum + ↑[c]) +
          Multiset.ofList (d.cards_in_river.getD j []) := by
      rw [h]; abel
    exact add_right_cancel h3
  rw [h2]
  abel

/-- Replacing a river slot at a valid index with its verified remainder
removes the card from the deck bag. -/
theorem deckBag_river_remove (d : DeckManager) (i : Nat)
    (slot1 : List PlayingCard) (c : PlayingCard)
    (hi : i < d.cards_in_river.length)
    (hrem : (↑(d.cards_in_river.getD i []) : Multiset PlayingCard) =
      ↑slot1 + ↑[c]) :
    deckBagExLake
        { d with
          cards_in_river := listModify d.cards_in_river i (fun _ => slot1) } +
        ↑[c] =
      deckBagExLake d := by
  unfold deckBagExLake
  simp only
  rw [coe_flatten, coe_flatten]
  have h := listModify_map_sum Multiset.ofList d.cards_in_river i
    (fun _ => slot1) [] hi
  rw [show Multiset.ofList (d.cards_in_river.getD i []) =
    ↑slot1 + ↑[c] from hrem] at h
  have h2 : ((listModify d.cards_in_river i fun _ => slot1).map
      Multiset.ofList).sum + ↑[c] =
      (d.cards_in_river.map Multiset.ofList).sum := by
    have h3 : (((listModify d.cards_in_river i fun _ => slot1).map
        Multiset.ofList).sum + ↑[c]) + ↑slot1 =
        (d.cards_in_river.map Multiset.ofList).sum + ↑slot1 := by
      calc (((listModify d.cards_in_river i fun _ => slot1).map
            Multiset.ofList).sum + ↑[c]) + ↑slot1
          = ((listModify d.cards_in_river i fun _ => slot1).map
            Multiset.ofList).sum + (↑slot1 + ↑[c]) := by abel
        _ = (d.cards_in_river.map Multiset.ofList).sum + Multiset.ofList slot1 := by
            rw [h]
    exact add_right_cancel h3
  calc ↑d.cards_in_deck + ↑d.cards_in_stream +
        ((listModify d.cards_in_river i fun _ => slot1).map
          Multiset.ofList).sum + ↑d.cards_in_nertz + ↑[c]
      = ↑d.cards_in_deck + ↑d.cards_in_stream +
        (((listModify d.cards_in_river i fun _ => slot1).map
          Multiset.ofList).sum + ↑[c]) + ↑d.cards_in_nertz := by abel
    _ = ↑d.cards_in_deck + ↑d.cards_in_stream +
        (d.cards_in_river.map Multiset.ofList).sum + ↑d.cards_in_nertz := by
        rw [h2]

/-- Successful destination effects add exactly the played card to the
non-lake total bag, given Ace-freshness (in a real game every Ace is played
at most once, so its identifier is still unbound). -/
theorem applyDestinationEffects_bag {gs gs1 : GameState} {m : Move}
    {c : PlayingCard}
    (hok : applyDestinationEffects gs m c = .ok gs1)
    (hdest : m.destination_pile = .FoundationPile ∨
      m.destination_pile = .RiverPile)
    (hfresh : c.rank = .A → m.destination_pile = .FoundationPile →
      lookupFoundation gs.foundations
        (foundationIdString m.player_index c.suit) = none) :
    totalBagExLake gs1 = totalBagExLake gs + ↑[c] := by
  unfold applyDestinationEffects at hok
  rcases hdest with hd | hd
  · rw [hd] at hok
    by_cases ha : c.rank = .A
    · simp only [ha, if_true] at hok
      have hgs1 := (Except.ok.inj hok).symm
      rw [hgs1, totalBag_modifyLake]
      have hf := hfresh ha hd
      unfold totalBagExLake createFoundation
      simp only
      rw [show (lookupFoundation gs.foundations
        (mkFoundation c m.player_index).identifier).isSome = false from by
          simp [mkFoundation, hf]]
      simp only [Bool.false_eq_true, if_false]
      rw [foundationsBag_append]
      simp only [mkFoundation]
      abel
    · simp only [ha, if_false] at hok
      cases hfid : m.foundation_identifier with
      | none =>
          simp only [hfid] at hok
          exact absurd hok (by simp)
      | some fid =>
          simp only [hfid] at hok
          cases hlf : lookupFoundation gs.foundations fid with
          | none =>
              simp only [hlf] at hok
              exact absurd hok (by simp)
          | some f =>
              simp only [hlf] at hok
              have hgs1 := (Except.ok.inj hok).symm
              rw [hgs1, totalBag_modifyLake]
              unfold totalBagExLake
              simp only
              have hup := @foundationsBag_update gs.foundations fid f
                (f.addCard c) hlf
              have hcards : (↑(f.addCard c).cards : Multiset PlayingCard) =
                  ↑f.cards + ↑[c] := by
                simp only [Foundation.addCard]
                exact (Multiset.coe_add _ _).symm
              rw [hcards] at hup
              have h2 : foundationsBag (updateFoundation gs.foundations fid
                  (f.addCard c)) = foundationsBag gs.foundations + ↑[c] := by
                have h3 : foundationsBag (updateFoundation gs.foundations fid
                    (f.addCard c)) + ↑f.cards =
                    (foundationsBag gs.foundations + ↑[c]) + ↑f.cards := by
                  rw [hup]; abel
                exact add_right_cancel h3
              rw [h2]
              abel
  · rw [hd] at hok
    cases hj : m.river_slot_destination with
    | none =>
        simp only [hj] at hok
        exact absurd hok (by simp)
    | some j =>
        simp only [hj] at hok
        cases hgp : getPlayer gs m.player_index with
        | error e =>
            simp only [hgp] at hok
            exact absurd hok (by simp)
        | ok pl =>
            simp only [hgp] at hok
            by_cases hlen : j < pl.deck.cards_in_river.length
            · rw [if_pos hlen] at hok
              have hgs1 := (Except.ok.inj hok).symm
              have hp : gs.players.get? m.player_index = some pl :=
                getPlayer_ok.mp hgp
              have hplen : m.player_index < gs.players.length :=
                (List.get?_eq_some.mp hp).1
              have hgetD : gs.players.getD m.player_index dfltPlayer = pl := by
                rw [List.getD_eq_getElem?_getD, ← List.get?_eq_getElem?, hp]
                rfl
              have hdelta := totalBag_modifyDeck gs m.player_index
                (fun d =>
                  { d with
                    cards_in_river := listModify d.cards_in_river j
                      (fun slot => slot ++ [c]) }) hplen
              rw [hgetD] at hdelta
              rw [hgs1]
              have hriver := deckBag_river_append pl.deck j c hlen
              have h4 : totalBagExLake (modifyDeck gs m.player_index fun d =>
                  { d with
                    cards_in_river := listModify d.cards_in_river j
                      (fun slot => slot ++ [c]) }) +
                  deckBagExLake pl.deck =
                  (totalBagExLake gs + ↑[c]) + deckBagExLake pl.deck := by
                rw [hdelta, hriver]
                abel
              exact add_right_cancel h4
            · rw [if_neg hlen] at hok
              exact absurd hok (by simp)

/-- Successful source effects remove exactly the played card from the
non-lake total bag. -/
theorem applySourceEffects_bag {gs gs2 : GameState} {m : Move}
    {c : PlayingCard}
    (hok : applySourceEffects gs m c = .ok gs2)
    (hsrc : m.source_pile = .NertzPile ∨ m.source_pile = .DeckPile ∨
      m.source_pile = .RiverPile) :
    totalBagExLake gs = totalBagExLake gs2 + ↑[c] := by
  unfold applySourceEffects at hok
  rcases hsrc with hs | hs | hs
  · rw [hs] at hok
    cases hgp : getPlayer gs m.player_index with
    | error e =>
        simp only [hgp] at hok
        exact absurd hok (by simp)
    | ok pl =>
        simp only [hgp] at hok
        cases hrm : removeTopVerified pl.deck.cards_in_nertz c "NertzPile" with
        | error e =>
            simp only [hrm] at hok
            exact absurd hok (by simp)
        | ok nertz1 =>
            simp only [hrm] at hok
            have hgs2 := (Except.ok.inj hok).symm
            have hp := getPlayer_ok.mp hgp
            have hplen : m.player_index < gs.players.length :=
              (List.get?_eq_some.mp hp).1
            have hgetD : gs.players.getD m.player_index dfltPlayer = pl := by
              rw [List.getD_eq_getElem?_getD, ← List.get?_eq_getElem?, hp]
              rfl
            have hdelta := totalBag_modifyDeck gs m.player_index
              (fun d => { d with cards_in_nertz := nertz1 }) hplen
            rw [hgetD] at hdelta
            have hrem := removeTopVerified_ok hrm
            have hbag : deckBagExLake
                { pl.deck with cards_in_nertz := nertz1 } + ↑[c] =
                deckBagExLake pl.deck := by
              unfold deckBagExLake
              simp only
              rw [hrem]
              abel
            rw [hgs2]
            have h4 : (totalBagExLake (modifyDeck gs m.player_index fun d =>
                { d with cards_in_nertz := nertz1 }) + ↑[c]) +
                deckBagExLake { pl.deck with cards_in_nertz := nertz1 } =
                totalBagExLake gs +
                  deckBagExLake { pl.deck with cards_in_nertz := nertz1 } := by
              calc (totalBagExLake (modifyDeck gs m.player_index fun d =>
                    { d with cards_in_nertz := nertz1 }) + ↑[c]) +
                    deckBagExLake { pl.deck with cards_in_nertz := nertz1 }
                  = totalBagExLake (modifyDeck gs m.player_index fun d =>
                    { d with cards_in_nertz := nertz1 }) +
                    (deckBagExLake { pl.deck with cards_in_nertz := nertz1 } +
                      ↑[c]) := by abel
                _ = totalBagExLake (modifyDeck gs m.player_index fun d =>
                    { d with cards_in_nertz := nertz1 }) +
                    deckBagExLake pl.deck := by rw [hbag]
                _ = totalBagExLake gs +
                    deckBagExLake { pl.deck with cards_in_nertz := nertz1 } := by
                    rw [hdelta]
            exact (add_right_cancel h4).symm
  · rw [hs] at hok
    cases hgp : getPlayer gs m.player_index with
    | error e =>
        simp only [hgp] at hok
        exact absurd hok (by simp)
    | ok pl =>
        simp only [hgp] at hok
        cases hrm : removeTopVerified pl.deck.cards_in_stream c
            "DeckPile (stream)" with
        | error e =>
            simp only [hrm] at hok
            exact absurd hok (by simp)
        | ok stream1 =>
            simp only [hrm] at hok
            have hgs2 := (Except.ok.inj hok).symm
            have hp := getPlayer_ok.mp hgp
            have hplen : m.player_index < gs.players.length :=
              (List.get?_eq_some.mp hp).1
            have hgetD : gs.players.getD m.player_index dfltPlayer = pl := by
              rw [List.getD_eq_getElem?_getD, ← List.get?_eq_getElem?, hp]
              rfl
            have hdelta := totalBag_modifyDeck gs m.player_index
              (fun d => { d with cards_in_stream := stream1 }) hplen
            rw [hgetD] at hdelta
            have hrem := removeTopVerified_ok hrm
            have hbag : deckBagExLake
                { pl.deck with cards_in_stream := stream1 } + ↑[c] =
                deckBagExLake pl.deck := by
              unfold deckBagExLake
              simp only
              rw [hrem]
              abel
            rw [hgs2]
            have h4 : (totalBagExLake (modifyDeck gs m.player_index fun d =>
                { d with cards_in_stream := stream1 }) + ↑[c]) +
                deckBagExLake { pl.deck with cards_in_stream := stream1 } =
                totalBagExLake gs +
                  deckBagExLake { pl.deck with cards_in_stream := stream1 } := by
              calc (totalBagExLake (modifyDeck gs m.player_index fun d =>
                    { d with cards_in_stream := stream1 }) + ↑[c]) +
                    deckBagExLake { pl.deck with cards_in_stream := stream1 }
                  = totalBagExLake (modifyDeck gs m.player_index fun d =>
                    { d with cards_in_stream := stream1 }) +
                    (deckBagExLake { pl.deck with cards_in_stream := stream1 } +
                      ↑[c]) := by abel
                _ = totalBagExLake (modifyDeck gs m.player_index fun d =>
                    { d with cards_in_stream := stream1 }) +
                    deckBagExLake pl.deck := by rw [hbag]
                _ = totalBagExLake gs +
                    deckBagExLake { pl.deck with cards_in_stream := stream1 } := by
                    rw [hdelta]
            exact (add_right_cancel h4).symm
  · rw [hs] at hok
    cases hi : m.river_slot_source with
    | none =>
        simp only [hi] at hok
        exact absurd hok (by simp)
    | some i =>
        simp only [hi] at hok
        cases hgp : getPlayer gs m.player_index with
        | error e =>
            simp only [hgp] at hok
            exact absurd hok (by simp)
        | ok pl =>
            simp only [hgp] at hok
            by_cases hlen : i < pl.deck.cards_in_river.length
            · rw [if_pos hlen] at hok
              cases hrm : removeFromRiver (pl.deck.cards_in_river.getD i []) c
                  (m.destination_pile = .RiverPile) with
              | error e =>
                  simp only [hrm] at hok
                  exact absurd hok (by simp)
              | ok slot1 =>
                  simp only [hrm] at hok
                  have hgs2 := (Except.ok.inj hok).symm
                  have hp := getPlayer_ok.mp hgp
                  have hplen : m.player_index < gs.players.length :=
                    (List.get?_eq_some.mp hp).1
                  have hgetD : gs.players.getD m.player_index dfltPlayer = pl := by
                    rw [List.getD_eq_getElem?_getD, ← List.get?_eq_getElem?, hp]
                    rfl
                  have hdelta := totalBag_modifyDeck gs m.player_index
                    (fun d =>
                      { d with
                        cards_in_river := listModify d.cards_in_river i
                          (fun _ => slot1) }) hplen
                  rw [hgetD] at hdelta
                  have hrem := removeFromRiver_ok hrm
                  have hbag := deckBag_river_remove pl.deck i slot1 c hlen hrem
                  rw [hgs2]
                  have h4 : (totalBagExLake (modifyDeck gs m.player_index
                      fun d =>
                        { d with
                          cards_in_river := listModify d.cards_in_river i
                            (fun _ => slot1) }) + ↑[c]) +
                      deckBagExLake
                        { pl.deck with
                          cards_in_river := listModify pl.deck.cards_in_river i
                            (fun _ => slot1) } =
                      totalBagExLake gs +
                        deckBagExLake
                          { pl.deck with
                            cards_in_river := listModify pl.deck.cards_in_river i
                              (fun _ => slot1) } := by
                    calc (totalBagExLake (modifyDeck gs m.player_index
                          fun d =>
                            { d with
                              cards_in_river := listModify d.cards_in_river i
                                (fun _ => slot1) }) + ↑[c]) +
                          deckBagExLake
                            { pl.deck with
                              cards_in_river := listModify pl.deck.cards_in_river
                                i (fun _ => slot1) }
                        = totalBagExLake (modifyDeck gs m.player_index
                          fun d =>
                            { d with
                              cards_in_river := listModify d.cards_in_river i
                                (fun _ => slot1) }) +
                          (deckBagExLake
                            { pl.deck with
                              cards_in_river := listModify pl.deck.cards_in_river
                                i (fun _ => slot1) } + ↑[c]) := by abel
                      _ = totalBagExLake (modifyDeck gs m.player_index
                          fun d =>
                            { d with
                              cards_in_river := listModify d.cards_in_river i
                                (fun _ => slot1) }) +
                          deckBagExLake pl.deck := by rw [hbag]
                      _ = totalBagExLake gs +
                          deckBagExLake
                            { pl.deck with
                              cards_in_river := listModify pl.deck.cards_in_river
                                i (fun _ => slot1) } := by rw [hdelta]
                  exact (add_right_cancel h4).symm
            · rw [if_neg hlen] at hok
              exact absurd hok (by simp)

/-- One successfully executed move keeps the non-lake total bag, provided
the move is shaped like every generated move (flip, or a real destination
and a real source) and Ace-freshness holds. -/
theorem executeMove_bag {gs gs' : GameState} {m : Move}
    (hok : executeMove gs m = .ok gs')
    (hdest : m.move_type ≠ .DECK_TO_DECK →
      m.destination_pile = .FoundationPile ∨ m.destination_pile = .RiverPile)
    (hsrc : m.move_type ≠ .DECK_TO_DECK →
      m.source_pile = .NertzPile ∨ m.source_pile = .DeckPile ∨
        m.source_pile = .RiverPile)
    (hfresh : ∀ c, m.card = some c → c.rank = .A →
      m.destination_pile = .FoundationPile →
      lookupFoundation gs.foundations
        (foundationIdString m.player_index c.suit) = none) :
    totalBagExLake gs' = totalBagExLake gs := by
  unfold executeMove at hok
  cases hgp : getPlayer gs m.player_index with
  | error e =>
      simp only [hgp] at hok
      exact absurd hok (by simp)
  | ok pl0 =>
      simp only [hgp] at hok
      by_cases hmt : m.move_type = .DECK_TO_DECK
      · rw [if_pos hmt] at hok
        have hgs' := (Except.ok.inj hok).symm
        rw [hgs']
        unfold totalBagExLake modifyDeck modifyPlayer playersBag
        simp only
        rw [listModify_map_sum_congr
          (fun pl : PlayerState => deckBagExLake pl.deck)
          (fun pl => { pl with deck := flipIntoStream pl.deck })
          (fun x => flipIntoStream_bag x.deck) gs.players m.player_index]
      · rw [if_neg hmt] at hok
        cases hc : m.card with
        | none =>
            simp only [hc] at hok
            exact absurd hok (by simp)
        | some c =>
            simp only [hc] at hok
            cases hde : applyDestinationEffects gs m c with
            | error e =>
                simp only [hde] at hok
                exact absurd hok (by simp)
            | ok gs1 =>
                simp only [hde] at hok
                have h1 := applyDestinationEffects_bag hde (hdest hmt)
                  (fun ha hd => hfresh c hc ha hd)
                have h2 := applySourceEffects_bag hok (hsrc hmt)
                exact add_right_cancel (h2.symm.trans h1)

/-- `createFoundation` registers the new foundation under its identifier. -/
theorem lookup_createFoundation (gs : GameState) (c : PlayingCard) (p : Nat) :
    lookupFoundation (createFoundation gs c p).foundations
      (foundationIdString p c.suit) = some (mkFoundation c p) := by
  unfold createFoundation
  simp only
  by_cases h : (lookupFoundation gs.foundations
      (mkFoundation c p).identifier).isSome
  · rw [if_pos h]
    exact lookupFoundation_update_self h
  · rw [if_neg h]
    exact lookupFoundation_append_self (by
      cases hl : lookupFoundation gs.foundations (mkFoundation c p).identifier
      · rfl
      · rw [hl] at h
        simp at h)

/-- Source effects never touch the foundations. -/
theorem applySourceEffects_foundations {gs gs2 : GameState} {m : Move}
    {c : PlayingCard} (hok : applySourceEffects gs m c = .ok gs2) :
    gs2.foundations = gs.foundations := by
  unfold applySourceEffects at hok
  cases hs : m.source_pile <;> rw [hs] at hok
  · cases hgp : getPlayer gs m.player_index <;> simp only [hgp] at hok
    · exact absurd hok (by simp)
    case ok pl =>
      cases hrm : removeTopVerified pl.deck.cards_in_nertz c "NertzPile" <;>
        simp only [hrm] at hok
      · exact absurd hok (by simp)
      · rw [← Except.ok.inj hok]
        rfl
  · cases hi : m.river_slot_source <;> simp only [hi] at hok
    · exact absurd hok (by simp)
    case some i =>
      cases hgp : getPlayer gs m.player_index <;> simp only [hgp] at hok
      · exact absurd hok (by simp)
      case ok pl =>
        by_cases hlen : i < pl.deck.cards_in_river.length
        · rw [if_pos hlen] at hok
          cases hrm : removeFromRiver (pl.deck.cards_in_river.getD i []) c
              (m.destination_pile = .RiverPile) <;> simp only [hrm] at hok
          · exact absurd hok (by simp)
          · rw [← Except.ok.inj hok]
            rfl
        · rw [if_neg hlen] at hok
          exact absurd hok (by simp)
  · cases hgp : getPlayer gs m.player_index <;> simp only [hgp] at hok
    · exact absurd hok (by simp)
    case ok pl =>
      cases hrm : removeTopVerified pl.deck.cards_in_stream c
          "DeckPile (stream)" <;> simp only [hrm] at hok
      · exact absurd hok (by simp)
      · rw [← Except.ok.inj hok]
        rfl
  · rw [← Except.ok.inj hok]

/-- Source effects never touch any lake pile. -/
theorem applySourceEffects_lake {gs gs2 : GameState} {m : Move}
    {c : PlayingCard} (hok : applySourceEffects gs m c = .ok gs2) (q : Nat) :
    (gs2.players.get? q).map (fun pl => pl.deck.cards_in_lake) =
      (gs.players.get? q).map (fun pl => pl.deck.cards_in_lake) := by
  have hform : gs2 = gs ∨ ∃ f : DeckManager → DeckManager,
      (∀ d, (f d).cards_in_lake = d.cards_in_lake) ∧
        gs2 = modifyDeck gs m.player_index f := by
    unfold applySourceEffects at hok
    cases hs : m.source_pile <;> rw [hs] at hok
    · cases hgp : getPlayer gs m.player_index with
      | error e =>
          simp only [hgp] at hok
          exact absurd hok (by simp)
      | ok pl =>
          simp only [hgp] at hok
          cases hrm : removeTopVerified pl.deck.cards_in_nertz c "NertzPile" with
          | error e =>
              simp only [hrm] at hok
              exact absurd hok (by simp)
          | ok nertz1 =>
              simp only [hrm] at hok
              exact Or.inr ⟨(fun d => { d with cards_in_nertz := nertz1 }),
                fun d => rfl, (Except.ok.inj hok).symm⟩
    · cases hi : m.river_slot_source with
      | none =>
          simp only [hi] at hok
          exact absurd hok (by simp)
      | some i =>
          simp only [hi] at hok
          cases hgp : getPlayer gs m.player_index with
          | error e =>
              simp only [hgp] at hok
              exact absurd hok (by simp)
          | ok pl =>
              simp only [hgp] at hok
              by_cases hlen : i < pl.deck.cards_in_river.length
              · rw [if_pos hlen] at hok
                cases hrm : removeFromRiver (pl.deck.cards_in_river.getD i []) c
                    (m.destination_pile = .RiverPile) with
                | error e =>
                    simp only [hrm] at hok
                    exact absurd hok (by simp)
                | ok slot1 =>
                    simp only [hrm] at hok
                    exact Or.inr ⟨(fun d => { d with cards_in_river := listModify d.cards_in_river i (fun _ => slot1) }),
                      fun d => rfl, (Except.ok.inj hok).symm⟩
              · rw [if_neg hlen] at hok
                exact absurd hok (by simp)
    · cases hgp : getPlayer gs m.player_index with
      | error e =>
          simp only [hgp] at hok
          exact absurd hok (by simp)
      | ok pl =>
          simp only [hgp] at hok
          cases hrm : removeTopVerified pl.deck.cards_in_stream c
              "DeckPile (stream)" with
          | error e =>
              simp only [hrm] at hok
              exact absurd hok (by simp)
          | ok stream1 =>
              simp only [hrm] at hok
              exact Or.inr ⟨(fun d => { d with cards_in_stream := stream1 }),
                fun d => rfl, (Except.ok.inj hok).symm⟩
    · exact Or.inl (Except.ok.inj hok).symm
  rcases hform with h | ⟨f, hf, h⟩
  · rw [h]
  · rw [h]
    unfold modifyDeck modifyPlayer
    simp only
    rw [show (listModify gs.players m.player_index fun pl =>
        { pl with deck := f pl.deck }).get? q =
        if m.player_index = q then (gs.players.get? q).map fun pl =>
          { pl with deck := f pl.deck }
        else gs.players.get? q from listModify_get? ..]
    by_cases hq : m.player_index = q
    · rw [if_pos hq]
      cases gs.players.get? q <;> simp [hf]
    · rw [if_neg hq]

/-- Destination effects of a foundation-Ace move: create the foundation,
then record the card in the mover's lake. -/
theorem applyDestinationEffects_ace {gs gs1 : GameState} {m : Move}
    {c : PlayingCard} (hd : m.destination_pile = .FoundationPile)
    (ha : c.rank = .A)
    (hok : applyDestinationEffects gs m c = .ok gs1) :
    gs1 = modifyDeck (createFoundation gs c m.player_index) m.player_index
      (fun d => { d with cards_in_lake := d.cards_in_lake ++ [c] }) := by
  unfold applyDestinationEffects at hok
  rw [hd] at hok
  simp only [ha, if_true] at hok
  exact (Except.ok.inj hok).symm

end Lemmas

/-- C1: executing a move whose destination is a foundation and whose card
is an Ace creates a new foundation owned by the moving player in the shared
game state (registered under the identifier `foundation_<mover>_<suit>`,
holding exactly the Ace, with `player_index` the mover), and appends that
card to the moving player's lake pile. -/
theorem ace_foundation_creates_and_appends_to_lake
    {gs gs' : GameState} {m : Move} {c : PlayingCard}
    (hmt : m.move_type ≠ .DECK_TO_DECK)
    (hc : m.card = some c) (ha : c.rank = .A)
    (hd : m.destination_pile = .FoundationPile)
    (hok : executeMove gs m = .ok gs') :
    lookupFoundation gs'.foundations
        (foundationIdString m.player_index c.suit) =
      some (mkFoundation c m.player_index) ∧
    ∃ pl pl', gs.players.get? m.player_index = some pl ∧
      gs'.players.get? m.player_index = some pl' ∧
      pl'.deck.cards_in_lake = pl.deck.cards_in_lake ++ [c] := by
  unfold executeMove at hok
  cases hgp : getPlayer gs m.player_index with
  | error e =>
      simp only [hgp] at hok
      exact absurd hok (by simp)
  | ok pl0 =>
      simp only [hgp] at hok
      rw [if_neg hmt] at hok
      simp only [hc] at hok
      cases hde : applyDestinationEffects gs m c with
      | error e =>
          simp only [hde] at hok
          exact absurd hok (by simp)
      | ok gs1 =>
          simp only [hde] at hok
          have hgs1 := applyDestinationEffects_ace hd ha hde
          have hp : gs.players.get? m.player_index = some pl0 :=
            getPlayer_ok.mp hgp
          constructor
          · rw [applySourceEffects_foundations hok, hgs1]
            exact lookup_createFoundation gs c m.player_index
          · have hlake := applySourceEffects_lake hok m.player_index
            have hg1 : (gs1.players.get? m.player_index).map
                (fun pl => pl.deck.cards_in_lake) =
                some (pl0.deck.cards_in_lake ++ [c]) := by
              rw [hgs1]
              unfold modifyDeck modifyPlayer createFoundation
              simp only
              rw [listModify_get?]
              rw [if_pos rfl, hp]
              rfl
            rw [hg1] at hlake
            cases hq : gs'.players.get? m.player_index with
            | none => rw [hq] at hlake; exact absurd hlake (by simp)
            | some pl' =>
                rw [hq] at hlake
                refine ⟨pl0, pl', hp, rfl, ?_⟩
                simpa using hlake

/-- Witness for C1: the Ace move on the concrete state `wGS` creates
`foundation_0_spades` holding the Ace and records it in player 0's lake. -/
theorem ace_foundation_witness :
    wMove.move_type ≠ .DECK_TO_DECK ∧ wMove.card = some wAce ∧
    wAce.rank = .A ∧ wMove.destination_pile = .FoundationPile ∧
    executeMove wGS wMove = .ok wGSR ∧
    (lookupFoundation wGSR.foundations
        (foundationIdString wMove.player_index wAce.suit) =
      some (mkFoundation wAce wMove.player_index) ∧
    ∃ pl pl', wGS.players.get? wMove.player_index = some pl ∧
      wGSR.players.get? wMove.player_index = some pl' ∧
      pl'.deck.cards_in_lake = pl.deck.cards_in_lake ++ [wAce]) :=
  ⟨by decide, rfl, rfl, rfl, rfl,
    ace_foundation_creates_and_appends_to_lake (by decide) rfl rfl rfl rfl⟩

/-- C2 (amended): for every successfully executed move of the shape the
generator produces (a flip, or a real source and a foundation/river
destination, with the Ace's identifier still unbound), and for every player
`p`, the multiset of `p`-owned cards across all non-lake piles and all
foundations is unchanged.  The lake must be excluded because each
foundation placement is additionally recorded there. -/
theorem executor_preserves_cards_excluding_lake
    {gs gs' : GameState} {m : Move}
    (hok : executeMove gs m = .ok gs')
    (hdest : m.move_type ≠ .DECK_TO_DECK →
      m.destination_pile = .FoundationPile ∨ m.destination_pile = .RiverPile)
    (hsrc : m.move_type ≠ .DECK_TO_DECK →
      m.source_pile = .NertzPile ∨ m.source_pile = .DeckPile ∨
        m.source_pile = .RiverPile)
    (hfresh : ∀ c, m.card = some c → c.rank = .A →
      m.destination_pile = .FoundationPile →
      lookupFoundation gs.foundations
        (foundationIdString m.player_index c.suit) = none) :
    ∀ p : Nat,
      Multiset.filter (fun card => card.player_index = p)
          (totalBagExLake gs') =
        Multiset.filter (fun card => card.player_index = p)
          (totalBagExLake gs) := by
  intro p
  rw [executeMove_bag hok hdest hsrc hfresh]

/-- Witness for the amended C2 at the concrete Ace move on `wGS`. -/
theorem executor_preserves_cards_excluding_lake_witness :
    Multiset.filter (fun card => card.player_index = 0)
        (totalBagExLake wGSR) =
      Multiset.filter (fun card => card.player_index = 0)
        (totalBagExLake wGS) :=
  @executor_preserves_cards_excluding_lake wGS wGSR wMove rfl
    (fun _ => Or.inl rfl) (fun _ => Or.inl rfl)
    (fun c hc _ _ => by
      have h : wAce = c := Option.some.inj hc
      rw [← h]
      rfl) 0

/-- C2 is false as stated: after the generated (legal) Ace→foundation move
from a freshly dealt one-player game, the multiset over all of that
player's piles plus all foundations holds 53 cards, not the original 52 —
the Ace is on the new foundation and in the lake at once. -/
theorem lake_double_count_breaks_full_multiset :
    calculateLegalMoves dealtGS 0 = .ok dealtMoves ∧
    dealtMove ∈ dealtMoves ∧
    executeMove dealtGS dealtMove = .ok dealtGS1 ∧
    playerBagWithLake dealtGS 0 = ↑(generateNewDeck 0) ∧
    Multiset.card (playerBagWithLake dealtGS 0) = 52 ∧
    Multiset.card (playerBagWithLake dealtGS1 0) = 53 := by
  refine ⟨rfl, ?_, rfl, by decide, by decide, by decide⟩
  have h : dealtMoves.head? = some dealtMove := rfl
  exact List.mem_of_mem_head? h

/-- C3: the code is at odds with its own documentation here.  The generated
river→river move for the two-card slot `[5♥, 4♠]` onto `[6♠]` is executed
by popping a single card: through the `MoveExecutor` the verified *bottom*
card is popped, leaving the source slot `[4♠]` (not empty) and the
destination with one gained card (not two); the simulator's inline executor
even verifies the bottom card but pops the *top*, returning `[5♥]`, which
duplicates the bottom card once the destination append is counted. -/
theorem river_to_river_moves_only_bottom_card :
    rrMove ∈ movesOfExcept (addRiverToRiverMoves rrGS 0) ∧
    executeMove rrGS rrMove = .ok rrGS1 ∧
    (∃ pl, rrGS1.players.get? 0 = some pl ∧
      pl.deck.cards_in_river =
        [[⟨.spades, .r4, 0⟩], [⟨.spades, .r6, 0⟩, ⟨.hearts, .r5, 0⟩],
          [], []]) ∧
    simRemoveFromRiver [⟨.hearts, .r5, 0⟩, ⟨.spades, .r4, 0⟩]
      ⟨.hearts, .r5, 0⟩ true = .ok [⟨.hearts, .r5, 0⟩] := by
  refine ⟨?_, rfl, ⟨_, rfl, rfl⟩, rfl⟩
  have h : (movesOfExcept (addRiverToRiverMoves rrGS 0)).head? =
      some rrMove := rfl
  exact List.mem_of_mem_head? h

/-- C4 is false as stated: with player 0's nertz pile empty,
`is_game_over()` is true but `play_turn()` returns normally with the engine
state unchanged — it raises no game-over error and computes no scores. -/
theorem game_over_play_turn_returns_silently :
    isGameOver goGS = true ∧ playTurn goES = .ok goES ∧
    ∀ e, playTurn goES ≠ .error e :=
  ⟨rfl, rfl, fun e h => by
    rw [show playTurn goES = .ok goES from rfl] at h
    exact absurd h (by simp)⟩

/-- C4 (amended): when any player's nertz pile is empty, `is_game_over()`
returns true, and `play_turn()` logs a warning and returns with the engine
state — turn counter and scores included — unchanged; it neither raises a
game-over error nor computes final scores. -/
theorem game_over_detected_and_turn_skipped (es : EngineState)
    (h : ∃ pl ∈ es.game_state.players, pl.deck.cards_in_nertz = []) :
    isGameOver es.game_state = true ∧ playTurn es = .ok es := by
  have hg : isGameOver es.game_state = true := by
    rcases h with ⟨pl, hmem, hn⟩
    unfold isGameOver
    rw [List.any_eq_true]
    exact ⟨pl, hmem, by simp [hn]⟩
  refine ⟨hg, ?_⟩
  unfold playTurn
  rw [hg]
  simp

/-- On a non-empty `None`-free stream, `top_stream_cards(1)` returns the
top card. -/
theorem topStreamCards_one_of_ne_nil {l : List PlayingCard} (h : l ≠ []) :
    ∃ tc, l.getLast? = some tc ∧
      topStreamCards 1 (l.map some) = .ok [tc] := by
  cases hgl : l.getLast? with
  | none => exact absurd (List.getLast?_eq_none_iff.mp hgl) h
  | some tc =>
      refine ⟨tc, rfl, ?_⟩
      unfold topStreamCards
      have hpos : 0 < l.length := List.length_pos.mpr h
      rw [if_neg (by rw [List.length_map]; omega)]
      have hl2 : l.dropLast ++ [tc] = l := List.dropLast_append_getLast? tc hgl
      have hlen : l.dropLast.length = l.length - 1 := by
        rw [List.length_dropLast]
      have hdrop : l.drop (l.length - 1) = [tc] :=
        calc l.drop (l.length - 1)
            = (l.dropLast ++ [tc]).drop (l.length - 1) := by rw [hl2]
          _ = [tc] := List.drop_left' hlen
      rw [List.length_map, ← List.map_drop, hdrop]
      rfl

/-- C5 (amended): with the engine's inline generator, the deck/stream
category always puts the deck-flip move first and emits exactly one flip;
when the stream is non-empty it succeeds, additionally emitting at most one
move that plays the stream's top card, against the river when a slot
qualifies and otherwise against a foundation.  (When the stream is empty
the calculation raises instead — see the counterexample.) -/
theorem deck_moves_with_nonempty_stream {gs : GameState} {p : Nat}
    {pl : PlayerState} (hp : gs.players.get? p = some pl)
    (hs : pl.deck.cards_in_stream ≠ []) :
    ∃ tc rest, pl.deck.cards_in_stream.getLast? = some tc ∧
      addDeckMoves gs p = .ok (generateStreamFlipMove gs p :: rest) ∧
      rest.length ≤ 1 ∧
      (generateStreamFlipMove gs p :: rest).countP
        (fun m => m.move_type = .DECK_TO_DECK) = 1 ∧
      (∀ m ∈ rest, m.card = some tc ∧
        (m.destination_pile = .RiverPile ∨
          m.destination_pile = .FoundationPile) ∧
        m.move_type ≠ .DECK_TO_DECK ∧
        (m.destination_pile = .FoundationPile →
          generateRiverMove gs p tc .DeckPile = .ok none)) := by
  obtain ⟨tc, hgl, htops⟩ := topStreamCards_one_of_ne_nil hs
  refine ⟨tc, ?_⟩
  unfold addDeckMoves
  simp only [getPlayer_ok.mpr hp, htops, List.head?_cons]
  have hriver : generateRiverMove gs p tc .DeckPile =
      .ok (((List.range 4).find?
          (riverSlotQualifies pl.deck.cards_in_river tc)).map
        fun i => mkMove gs.foundations p .DeckPile .RiverPile (some tc) 0
          MoveType.DECK_TO_RIVER none none (some i)) := by
    unfold generateRiverMove
    simp [getPlayer_ok.mpr hp]
  cases hfind : (List.range 4).find?
      (riverSlotQualifies pl.deck.cards_in_river tc) with
  | some i =>
      rw [hfind] at hriver
      simp only [Option.map_some'] at hriver
      simp only [hriver]
      refine ⟨[mkMove gs.foundations p .DeckPile .RiverPile (some tc) 0
        MoveType.DECK_TO_RIVER none none (some i)], hgl, rfl, by simp, ?_, ?_⟩
      · simp [List.countP_cons, List.countP_nil, generateStreamFlipMove, mkMove]
      · intro m hm
        rw [List.mem_singleton] at hm
        subst hm
        exact ⟨rfl, Or.inl rfl, by simp [mkMove], fun hcontra => by
          simp [mkMove] at hcontra⟩
  | none =>
      rw [hfind] at hriver
      simp only [Option.map_none'] at hriver
      simp only [hriver]
      have hfound : generateFoundationMove gs p tc .DeckPile none =
          .ok (if tc.rank = .A then
            some (mkMove gs.foundations p .DeckPile .FoundationPile (some tc)
              (gs.dist p (foundationIdString p tc.suit))
              MoveType.DECK_TO_FOUNDATION
              (some (foundationIdString p tc.suit)) none none)
          else
            (gs.foundations.find? fun q =>
                tc.suit = q.2.suit ∧
                  (match q.2.topCard with
                   | some t => nextRank t.rank = some tc.rank
                   | none => false : Bool)).map
              fun q => mkMove gs.foundations p .DeckPile .FoundationPile
                (some tc) (gs.dist p q.2.identifier)
                MoveType.DECK_TO_FOUNDATION (some q.2.identifier) none
                none) := by
        unfold generateFoundationMove
        by_cases ha : tc.rank = .A
        · rw [if_pos ha]
          simp [ha]
        · rw [if_neg ha]
          simp [ha]
      by_cases ha : tc.rank = .A
      · rw [if_pos ha] at hfound
        simp only [hfound]
        refine ⟨[mkMove gs.foundations p .DeckPile .FoundationPile (some tc)
          (gs.dist p (foundationIdString p tc.suit))
          MoveType.DECK_TO_FOUNDATION (some (foundationIdString p tc.suit))
          none none], hgl, rfl, by simp, ?_, ?_⟩
        · simp [List.countP_cons, List.countP_nil, generateStreamFlipMove,
            mkMove]
        · intro m hm
          rw [List.mem_singleton] at hm
          subst hm
          exact ⟨rfl, Or.inr rfl, by simp [mkMove], fun _ => trivial⟩
      · rw [if_neg ha] at hfound
        cases hq : gs.foundations.find? fun q =>
            tc.suit = q.2.suit ∧
              (match q.2.topCard with
               | some t => nextRank t.rank = some tc.rank
               | none => false : Bool) with
        | some q =>
            rw [hq] at hfound
            simp only [Option.map_some'] at hfound
            simp only [hfound]
            refine ⟨[mkMove gs.foundations p .DeckPile .FoundationPile
              (some tc) (gs.dist p q.2.identifier)
              MoveType.DECK_TO_FOUNDATION (some q.2.identifier) none none],
              hgl, rfl, by simp, ?_, ?_⟩
            · simp [List.countP_cons, List.countP_nil, generateStreamFlipMove,
                mkMove]
            · intro m hm
              rw [List.mem_singleton] at hm
              subst hm
              exact ⟨rfl, Or.inr rfl, by simp [mkMove], fun _ => trivial⟩
        | none =>
            rw [hq] at hfound
            simp only [Option.map_none'] at hfound
            simp only [hfound]
            refine ⟨[], hgl, rfl, by simp, ?_, ?_⟩
            · simp [List.countP_cons, List.countP_nil, generateStreamFlipMove,
                mkMove]
            · intro m hm
              exact absurd hm (by simp)

/-- Witness for the amended C5 at the concrete state `wGS` (stream `[2♣]`). -/
theorem deck_moves_with_nonempty_stream_witness :
    ∃ tc rest, wPlayer.deck.cards_in_stream.getLast? = some tc ∧
      addDeckMoves wGS 0 = .ok (generateStreamFlipMove wGS 0 :: rest) ∧
      rest.length ≤ 1 ∧
      (generateStreamFlipMove wGS 0 :: rest).countP
        (fun m => m.move_type = .DECK_TO_DECK) = 1 ∧
      (∀ m ∈ rest, m.card = some tc ∧
        (m.destination_pile = .RiverPile ∨
          m.destination_pile = .FoundationPile) ∧
        m.move_type ≠ .DECK_TO_DECK ∧
        (m.destination_pile = .FoundationPile →
          generateRiverMove wGS 0 tc .DeckPile = .ok none)) :=
  deck_moves_with_nonempty_stream rfl (by decide)

/-- C5 is false as stated: legal-move calculation raises (`ValueError` from
`top_stream_cards`) when the stream is empty, instead of succeeding. -/
theorem empty_stream_fails_legal_move_calculation :
    (∃ pl, esGS.players.get? 0 = some pl ∧
      pl.deck.cards_in_stream = []) ∧
    calculateLegalMoves esGS 0 = .error "Not enough cards in stream" :=
  ⟨⟨_, rfl, rfl⟩, rfl⟩

/-- Witness for the amended C4 at the concrete game-over state `goES`. -/
theorem game_over_detected_witness :
    isGameOver goES.game_state = true ∧ playTurn goES = .ok goES :=
  game_over_detected_and_turn_skipped goES
    ⟨{ player_index := 0, score := 0, deck :=
        { player_index := 0
          cards_in_deck := []
          cards_in_stream := [⟨.clubs, .r2, 0⟩]
          cards_in_river := [[], [], [], []]
          cards_in_nertz := []
          cards_in_lake := [] } },
      List.mem_singleton.mpr rfl, rfl⟩

/-- Unfolding of the conflict sort key comparison. -/
theorem moveKeyLE_iff {a b : Move} :
    moveKeyLE a b = true ↔
      (-a.priority < -b.priority ∨
        (-a.priority = -b.priority ∧
          (a.distance < b.distance ∨
            (a.distance = b.distance ∧ a.player_index ≤ b.player_index)))) := by
  unfold moveKeyLE
  simp

/-- The conflict key order is reflexive. -/
theorem moveKeyLE_refl (a : Move) : moveKeyLE a a = true :=
  moveKeyLE_iff.mpr (Or.inr ⟨rfl, Or.inr ⟨rfl, le_refl _⟩⟩)

/-- The conflict key order is total. -/
theorem moveKeyLE_total (a b : Move) :
    moveKeyLE a b = true ∨ moveKeyLE b a = true := by
  rcases lt_trichotomy (-a.priority) (-b.priority) with h | h | h
  · exact Or.inl (moveKeyLE_iff.mpr (Or.inl h))
  · rcases lt_trichotomy a.distance b.distance with h2 | h2 | h2
    · exact Or.inl (moveKeyLE_iff.mpr (Or.inr ⟨h, Or.inl h2⟩))
    · rcases le_total a.player_index b.player_index with h3 | h3
      · exact Or.inl (moveKeyLE_iff.mpr (Or.inr ⟨h, Or.inr ⟨h2, h3⟩⟩))
      · exact Or.inr (moveKeyLE_iff.mpr (Or.inr ⟨h.symm, Or.inr ⟨h2.symm, h3⟩⟩))
    · exact Or.inr (moveKeyLE_iff.mpr (Or.inr ⟨h.symm, Or.inl h2⟩))
  · exact Or.inr (moveKeyLE_iff.mpr (Or.inl h))

/-- The conflict key order is transitive. -/
theorem moveKeyLE_trans {a b c : Move} (h1 : moveKeyLE a b = true)
    (h2 : moveKeyLE b c = true) : moveKeyLE a c = true := by
  rw [moveKeyLE_iff] at h1 h2 ⊢
  rcases h1 with h1 | ⟨e1, h1⟩ <;> rcases h2 with h2 | ⟨e2, h2⟩
  · exact Or.inl (h1.trans h2)
  · exact Or.inl (lt_of_lt_of_eq h1 e2)
  · exact Or.inl (lt_of_eq_of_lt e1 h2)
  · refine Or.inr ⟨e1.trans e2, ?_⟩
    rcases h1 with h1 | ⟨f1, h1⟩ <;> rcases h2 with h2 | ⟨f2, h2⟩
    · exact Or.inl (h1.trans h2)
    · exact Or.inl (lt_of_lt_of_eq h1 f2)
    · exact Or.inl (lt_of_eq_of_lt f1 h2)
    · exact Or.inr ⟨f1.trans f2, h1.trans h2⟩

/-- Stable insertion permutes to a plain cons. -/
theorem insertKeyed_perm (x : Move) :
    ∀ l : List Move, List.Perm (insertKeyed x l) (x :: l)
  | [] => List.Perm.refl _
  | y :: ys => by
      unfold insertKeyed
      by_cases h : moveKeyLE y x = true
      · rw [if_pos h]
        exact ((insertKeyed_perm x ys).cons y).trans (List.Perm.swap x y ys)
      · rw [if_neg h]

/-- The insertion sort fold permutes to the accumulator plus the input. -/
theorem sortFold_perm :
    ∀ (l acc : List Move),
      List.Perm (l.foldl (fun a x => insertKeyed x a) acc) (acc ++ l)
  | [], acc => by simp
  | x :: xs, acc => by
      simp only [List.foldl_cons]
      exact ((sortFold_perm xs _).trans
        (((insertKeyed_perm x acc).append_right xs).trans
          List.perm_middle.symm))

/-- `sortMoves` permutes its input. -/
theorem sortMoves_perm (l : List Move) : List.Perm (sortMoves l) l := by
  unfold sortMoves
  simpa using sortFold_perm l []

/-- Stable insertion preserves sortedness by the key order. -/
theorem insertKeyed_pairwise {x : Move} :
    ∀ {l : List Move},
      l.Pairwise (fun a b => moveKeyLE a b = true) →
      (insertKeyed x l).Pairwise (fun a b => moveKeyLE a b = true) := by
  intro l
  induction l with
  | nil => intro _; simp [insertKeyed]
  | cons y ys ih =>
      intro hp
      rcases List.pairwise_cons.mp hp with ⟨hy, hys⟩
      unfold insertKeyed
      by_cases h : moveKeyLE y x = true
      · rw [if_pos h]
        refine List.pairwise_cons.mpr ⟨?_, ih hys⟩
        intro z hz
        have hz2 : z = x ∨ z ∈ ys := by
          have := (insertKeyed_perm x ys).mem_iff.mp hz
          simpa using this
        rcases hz2 with rfl | hz2
        · exact h
        · exact hy z hz2
      · rw [if_neg h]
        have hxy : moveKeyLE x y = true := (moveKeyLE_total x y).resolve_right h
        refine List.pairwise_cons.mpr ⟨?_, hp⟩
        intro z hz
        rcases List.mem_cons.mp hz with rfl | hz2
        · exact hxy
        · exact moveKeyLE_trans hxy (hy z hz2)

/-- The insertion sort fold keeps the accumulator sorted. -/
theorem sortFold_pairwise :
    ∀ (l acc : List Move),
      acc.Pairwise (fun a b => moveKeyLE a b = true) →
      (l.foldl (fun a x => insertKeyed x a) acc).Pairwise
        (fun a b => moveKeyLE a b = true)
  | [], _, h => h
  | x :: xs, acc, h => by
      simp only [List.foldl_cons]
      exact sortFold_pairwise xs _ (insertKeyed_pairwise h)

/-- `sortMoves` output is sorted by the key order. -/
theorem sortMoves_pairwise (l : List Move) :
    (sortMoves l).Pairwise (fun a b => moveKeyLE a b = true) :=
  sortFold_pairwise l [] (by simp)

/-- The first element of the sorted group has minimal key among the
group. -/
theorem sortMoves_head_min {g : List Move} {w : Move} {rest : List Move}
    (hs : sortMoves g = w :: rest) :
    ∀ m ∈ g, moveKeyLE w m = true := by
  intro m hm
  have hm2 : m ∈ w :: rest := hs ▸ (sortMoves_perm g).mem_iff.mpr hm
  rcases List.mem_cons.mp hm2 with rfl | hr
  · exact moveKeyLE_refl m
  · have hp := sortMoves_pairwise g
    rw [hs] at hp
    exact (List.pairwise_cons.mp hp).1 m hr

/-- The winner of a non-empty group is the head of its stable sort. -/
theorem groupWinner_eq_sort_head {g : List Move} (h : g ≠ []) :
    ∃ w rest, sortMoves g = w :: rest ∧ groupWinner g = [w] ∧ w ∈ g := by
  have hform : groupWinner g =
      match sortMoves g with
      | w :: _ => [w]
      | [] => [] := by
    match g with
    | [] => exact absurd rfl h
    | [m] => rfl
    | m1 :: m2 :: ms => rfl
  cases hs : sortMoves g with
  | nil =>
      have := (sortMoves_perm g).length_eq
      rw [hs] at this
      simp at this
      exact absurd (List.length_eq_zero.mp this.symm) h
  | cons w rest =>
      refine ⟨w, rest, rfl, ?_, ?_⟩
      · rw [hform, hs]
      · exact (sortMoves_perm g).mem_iff.mp (hs ▸ List.mem_cons_self w rest)

/-- Appending a move to its group rewrites exactly that key's group. -/
theorem appendToGroup_groupOf (gl : List (String × List Move))
    (key fid : String) (m : Move) :
    groupOf (appendToGroup gl key m) fid =
      if key = fid then groupOf gl fid ++ [m] else groupOf gl fid := by
  induction gl with
  | nil =>
      by_cases h : key = fid
      · subst h
        simp [appendToGroup, groupOf, List.find?]
      · simp [appendToGroup, groupOf, List.find?, h]
  | cons q rest ih =>
      unfold appendToGroup
      by_cases hqk : q.1 = key
      · rw [if_pos hqk]
        by_cases hkf : key = fid
        · have hqf : q.1 = fid := hqk.trans hkf
          simp [groupOf, List.find?, hqf, hkf]
        · have hqf : ¬ q.1 = fid := by rw [hqk]; exact hkf
          simp [groupOf, List.find?, hqf, hkf]
      · rw [if_neg hqk]
        by_cases hqf : q.1 = fid
        · have hkf : ¬ key = fid := fun hc => hqk (hqf.trans hc.symm)
          simp [groupOf, List.find?, hqf, hkf]
        · have hskip : ∀ tail : List (String × List Move),
              groupOf (q :: tail) fid = groupOf tail fid := by
            intro tail
            simp [groupOf, List.find?, hqf]
          rw [hskip, hskip, ih]

/-- Appending a move keeps the key list, or extends it by the new key. -/
theorem appendToGroup_keys (gl : List (String × List Move)) (key : String)
    (m : Move) :
    (appendToGroup gl key m).map Prod.fst = gl.map Prod.fst ∨
      (appendToGroup gl key m).map Prod.fst = gl.map Prod.fst ++ [key] := by
  induction gl with
  | nil => right; simp [appendToGroup]
  | cons q rest ih =>
      unfold appendToGroup
      by_cases hqk : q.1 = key
      · rw [if_pos hqk]
        left
        simp
      · rw [if_neg hqk]
        rcases ih with h | h
        · left
          simp [h]
        · right
          simp [h]

/-- Appending a candidate for its own key preserves the conflict-map
invariant. -/
theorem appendToGroup_wf {gl : List (String × List Move)} {key : String}
    {m : Move} (hwf : conflictMapWF gl)
    (hm : isConflictCandidate key m = true) :
    conflictMapWF (appendToGroup gl key m) := by
  induction gl with
  | nil =>
      refine ⟨by simp [appendToGroup], ?_⟩
      intro e he
      simp only [appendToGroup, List.mem_singleton] at he
      subst he
      exact ⟨by simp, fun x hx => by
        rw [List.mem_singleton] at hx
        subst hx
        exact hm⟩
  | cons q rest ih =>
      rcases hwf with ⟨hnd, hent⟩
      rw [List.map_cons] at hnd
      rcases List.nodup_cons.mp hnd with ⟨hq1, hndrest⟩
      have hwfrest : conflictMapWF rest :=
        ⟨hndrest, fun e he => hent e (List.mem_cons_of_mem q he)⟩
      unfold appendToGroup
      by_cases hqk : q.1 = key
      · rw [if_pos hqk]
        refine ⟨?_, ?_⟩
        · rw [List.map_cons]
          exact List.nodup_cons.mpr ⟨hq1, hndrest⟩
        · intro e he
          rcases List.mem_cons.mp he with rfl | he2
          · have hq := hent q (List.mem_cons_self q rest)
            refine ⟨by simp, ?_⟩
            intro x hx
            rcases List.mem_append.mp hx with hx | hx
            · exact hq.2 x hx
            · rw [List.mem_singleton] at hx
              subst hx
              rw [hqk]
              exact hm
          · exact hent e (List.mem_cons_of_mem q he2)
      · rw [if_neg hqk]
        have hih := ih hwfrest
        refine ⟨?_, ?_⟩
        · rw [List.map_cons]
          rcases appendToGroup_keys rest key m with h | h
          · rw [h]
            exact List.nodup_cons.mpr ⟨hq1, hndrest⟩
          · rw [h]
            refine List.nodup_cons.mpr ⟨?_, ?_⟩
            · intro hmem
              rcases List.mem_append.mp hmem with hc | hc
              · exact hq1 hc
              · rw [List.mem_singleton] at hc
                exact hqk hc
            · rw [← h]
              exact hih.1
        · intro e he
          rcases List.mem_cons.mp he with rfl | he2
          · exact hent q (List.mem_cons_self q rest)
          · exact hih.2 e he2

/-- A pass-through move is never a conflict candidate. -/
theorem passes_not_candidate {m : Move} (h : passesResolver m = true)
    (fid : String) : isConflictCandidate fid m = false := by
  unfold passesResolver at h
  unfold isConflictCandidate
  rcases Bool.or_eq_true_iff.mp h with h | h
  · simp only [decide_eq_true_eq] at h
    simp [h]
  · simp [h]

/-- The partition loop, over any starting accumulator: the first component
collects the pass-through moves in order, and each key's group collects
exactly its candidates in order. -/
theorem partitionFold_spec :
    ∀ (chosen : List Move) (st : List Move × List (String × List Move)),
      (chosen.foldl
        (fun (st : List Move × List (String × List Move)) m =>
          if m.destination_pile ≠ .FoundationPile then (st.1 ++ [m], st.2)
          else if moveCardIsAce m then (st.1 ++ [m], st.2)
          else (st.1, appendToGroup st.2 (m.foundation_identifier.getD "") m))
        st).1 = st.1 ++ chosen.filter passesResolver ∧
      ∀ fid : String,
        groupOf ((chosen.foldl
          (fun (st : List Move × List (String × List Move)) m =>
            if m.destination_pile ≠ .FoundationPile then (st.1 ++ [m], st.2)
            else if moveCardIsAce m then (st.1 ++ [m], st.2)
            else (st.1, appendToGroup st.2 (m.foundation_identifier.getD "") m))
          st).2) fid =
          groupOf st.2 fid ++ chosen.filter (isConflictCandidate fid)
  | [], st => by simp
  | m :: ms, st => by
      simp only [List.foldl_cons]
      by_cases h1 : m.destination_pile ≠ .FoundationPile
      · rw [if_pos h1]
        have hpass : passesResolver m = true := by
          unfold passesResolver
          simp [h1]
        have hcand : ∀ fid, isConflictCandidate fid m = false :=
          passes_not_candidate hpass
        have ih := partitionFold_spec ms (st.1 ++ [m], st.2)
        refine ⟨?_, ?_⟩
        · rw [ih.1, List.filter_cons_of_pos hpass]
          simp
        · intro fid
          rw [ih.2 fid, List.filter_cons_of_neg (by simp [hcand fid])]
      · rw [if_neg h1]
        have hdf : m.destination_pile = .FoundationPile := not_not.mp h1
        by_cases h2 : moveCardIsAce m = true
        · rw [if_pos h2]
          have hpass : passesResolver m = true := by
            unfold passesResolver
            simp [h2]
          have hcand : ∀ fid, isConflictCandidate fid m = false :=
            passes_not_candidate hpass
          have ih := partitionFold_spec ms (st.1 ++ [m], st.2)
          refine ⟨?_, ?_⟩
          · rw [ih.1, List.filter_cons_of_pos hpass]
            simp
          · intro fid
            rw [ih.2 fid, List.filter_cons_of_neg (by simp [hcand fid])]
        · rw [if_neg h2]
          have hace : moveCardIsAce m = false := Bool.eq_false_iff.mpr h2
          have hpass : passesResolver m = false := by
            unfold passesResolver
            simp [hdf, hace]
          have ih := partitionFold_spec ms
            (st.1, appendToGroup st.2 (m.foundation_identifier.getD "") m)
          refine ⟨?_, ?_⟩
          · rw [ih.1, List.filter_cons_of_neg (by simp [hpass])]
          · intro fid
            rw [ih.2 fid, appendToGroup_groupOf]
            by_cases hk : m.foundation_identifier.getD "" = fid
            · rw [if_pos hk]
              have hc : isConflictCandidate fid m = true := by
                unfold isConflictCandidate
                simp [hdf, hace, hk]
              rw [List.filter_cons_of_pos hc]
              simp
            · rw [if_neg hk]
              have hc : isConflictCandidate fid m = false := by
                unfold isConflictCandidate
                simp [hk]
              rw [List.filter_cons_of_neg (by simp [hc])]

/-- The partition loop keeps the conflict map well-formed. -/
theorem partitionFold_wf :
    ∀ (chosen : List Move) (st : List Move × List (String × List Move)),
      conflictMapWF st.2 →
      conflictMapWF ((chosen.foldl
        (fun (st : List Move × List (String × List Move)) m =>
          if m.destination_pile ≠ .FoundationPile then (st.1 ++ [m], st.2)
          else if moveCardIsAce m then (st.1 ++ [m], st.2)
          else (st.1, appendToGroup st.2 (m.foundation_identifier.getD "") m))
        st).2)
  | [], _, h => h
  | m :: ms, st, h => by
      simp only [List.foldl_cons]
      by_cases h1 : m.destination_pile ≠ .FoundationPile
      · rw [if_pos h1]
        exact partitionFold_wf ms _ h
      · rw [if_neg h1]
        have hdf : m.destination_pile = .FoundationPile := not_not.mp h1
        by_cases h2 : moveCardIsAce m = true
        · rw [if_pos h2]
          exact partitionFold_wf ms _ h
        · rw [if_neg h2]
          have hace : moveCardIsAce m = false := Bool.eq_false_iff.mpr h2
          refine partitionFold_wf ms _ (appendToGroup_wf h ?_)
          unfold isConflictCandidate
          simp [hdf, hace]

/-- Winners of groups whose key is not `fid` never pass the `fid` filter. -/
theorem winners_filter_notmem (fid : String) :
    ∀ gl : List (String × List Move), conflictMapWF gl →
      (∀ e ∈ gl, e.1 ≠ fid) →
      (gl.flatMap fun e => groupWinner e.2).filter
        (isConflictCandidate fid) = []
  | [], _, _ => by simp
  | e :: rest, hwf, hnot => by
      rcases hwf with ⟨hnd, hent⟩
      rw [List.map_cons] at hnd
      have hwfrest : conflictMapWF rest :=
        ⟨(List.nodup_cons.mp hnd).2,
          fun e2 he2 => hent e2 (List.mem_cons_of_mem e he2)⟩
      rw [List.flatMap_cons, List.filter_append]
      have he := hent e (List.mem_cons_self e rest)
      obtain ⟨w, r2, _, hgw, hwmem⟩ := groupWinner_eq_sort_head he.1
      have hcand := he.2 w hwmem
      have hkey : w.foundation_identifier.getD "" = e.1 := by
        unfold isConflictCandidate at hcand
        simp only [decide_eq_true_eq] at hcand
        exact hcand.2.2
      have hno : isConflictCandidate fid w = false := by
        unfold isConflictCandidate
        simp [hkey, hnot e (List.mem_cons_self e rest)]
      rw [hgw, List.filter_cons_of_neg (by simp [hno]), List.filter_nil]
      rw [List.nil_append]
      exact winners_filter_notmem fid rest hwfrest
        (fun e2 he2 => hnot e2 (List.mem_cons_of_mem e he2))

/-- Filtering the winners by one foundation identifier picks exactly the
winner of that identifier's group. -/
theorem winners_filter (fid : String) :
    ∀ gl : List (String × List Move), conflictMapWF gl →
      (gl.flatMap fun e => groupWinner e.2).filter
        (isConflictCandidate fid) = groupWinner (groupOf gl fid)
  | [], _ => by
      simp [groupOf, groupWinner, sortMoves]
  | e :: rest, hwf => by
      rcases hwf with ⟨hnd, hent⟩
      rw [List.map_cons] at hnd
      rcases List.nodup_cons.mp hnd with ⟨he1, hndrest⟩
      have hwfrest : conflictMapWF rest :=
        ⟨hndrest, fun e2 he2 => hent e2 (List.mem_cons_of_mem e he2)⟩
      rw [List.flatMap_cons, List.filter_append]
      have he := hent e (List.mem_cons_self e rest)
      by_cases hef : e.1 = fid
      · have hgrp : groupOf (e :: rest) fid = e.2 := by
          simp [groupOf, List.find?, hef]
        rw [hgrp]
        obtain ⟨w, r2, _, hgw, hwmem⟩ := groupWinner_eq_sort_head he.1
        have hcand := he.2 w hwmem
        have hc2 : isConflictCandidate fid w = true := hef ▸ hcand
        rw [hgw, List.filter_cons_of_pos hc2, List.filter_nil]
        have hrest : (rest.flatMap fun e2 => groupWinner e2.2).filter
            (isConflictCandidate fid) = [] := by
          refine winners_filter_notmem fid rest hwfrest ?_
          intro e2 he2 hc
          exact he1 (by
            rw [hef, ← hc]
            exact List.mem_map_of_mem Prod.fst he2)
        rw [hrest]
        simp
      · have hgrp : groupOf (e :: rest) fid = groupOf rest fid := by
          simp [groupOf, List.find?, hef]
        rw [hgrp]
        obtain ⟨w, r2, _, hgw, hwmem⟩ := groupWinner_eq_sort_head he.1
        have hcand := he.2 w hwmem
        have hkey : w.foundation_identifier.getD "" = e.1 := by
          unfold isConflictCandidate at hcand
          simp only [decide_eq_true_eq] at hcand
          exact hcand.2.2
        have hno : isConflictCandidate fid w = false := by
          unfold isConflictCandidate
          simp [hkey, hef]
        rw [hgw, List.filter_cons_of_neg (by simp [hno]), List.filter_nil,
          List.nil_append]
        exact winners_filter fid rest hwfrest

/-- C6: conflict resolution passes through untouched every chosen move
whose destination is not a foundation or whose card is an Ace; for each
foundation identifier, the surviving moves among its competitors are
exactly the first element of the group's stable sort by
`(-priority, distance, player_index)` — a move with minimal key, hence
maximal priority, then minimal distance, then minimal player index — and
the rest are discarded.  `resolve` is a pure function of the chosen list,
so the winner is deterministic for a fixed set of competing moves. -/
theorem conflict_resolution_characterization (chosen : List Move) :
    (∀ m ∈ chosen,
      (m.destination_pile ≠ .FoundationPile ∨ moveCardIsAce m = true) →
      m ∈ resolveConflicts chosen) ∧
    ∀ fid : String,
      (resolveConflicts chosen).filter (isConflictCandidate fid) =
        groupWinner (chosen.filter (isConflictCandidate fid)) ∧
      (chosen.filter (isConflictCandidate fid) ≠ [] →
        ∃ w rest,
          sortMoves (chosen.filter (isConflictCandidate fid)) = w :: rest ∧
          (resolveConflicts chosen).filter (isConflictCandidate fid) = [w] ∧
          w ∈ chosen.filter (isConflictCandidate fid) ∧
          ∀ m2 ∈ chosen.filter (isConflictCandidate fid),
            moveKeyLE w m2 = true) := by
  have hspec := partitionFold_spec chosen ([], [])
  have hfst : (partitionChosen chosen).1 = chosen.filter passesResolver := by
    unfold partitionChosen
    rw [hspec.1, List.nil_append]
  have hsnd : ∀ fid, groupOf (partitionChosen chosen).2 fid =
      chosen.filter (isConflictCandidate fid) := by
    intro fid
    unfold partitionChosen
    rw [hspec.2 fid]
    simp [groupOf]
  have hwf2 : conflictMapWF (partitionChosen chosen).2 := by
    unfold partitionChosen
    exact partitionFold_wf chosen ([], []) ⟨List.nodup_nil, by simp⟩
  have hres : resolveConflicts chosen = (partitionChosen chosen).1 ++
      (partitionChosen chosen).2.flatMap fun g => groupWinner g.2 := rfl
  constructor
  · intro m hm hcond
    have hpassm : passesResolver m = true := by
      unfold passesResolver
      rcases hcond with h | h
      · simp [h]
      · simp [h]
    rw [hres]
    exact List.mem_append_left _
      (hfst ▸ List.mem_filter.mpr ⟨hm, hpassm⟩)
  · intro fid
    have heq : (resolveConflicts chosen).filter (isConflictCandidate fid) =
        groupWinner (chosen.filter (isConflictCandidate fid)) := by
      rw [hres, List.filter_append]
      have h1 : ((partitionChosen chosen).1).filter
          (isConflictCandidate fid) = [] := by
        rw [hfst]
        rw [List.filter_eq_nil_iff]
        intro a ha
        have hpa := (List.mem_filter.mp ha).2
        rw [passes_not_candidate hpa fid]
        simp
      have h2 := winners_filter fid (partitionChosen chosen).2 hwf2
      rw [h1, h2, List.nil_append, hsnd fid]
    refine ⟨heq, ?_⟩
    intro hne
    obtain ⟨w, rest, hs, hgw, hwmem⟩ := groupWinner_eq_sort_head hne
    exact ⟨w, rest, hs, by rw [heq, hgw], hwmem, sortMoves_head_min hs⟩

/-- Witness for C6 at a concrete trio of chosen moves: the flip move passes
through, and the two competitors for `foundation_0_spades` are resolved to
the single sort-head winner, minimal in the key order. -/
theorem conflict_resolution_witness :
    cfMoveC ∈ resolveConflicts [cfMoveA, cfMoveB, cfMoveC] ∧
    ∃ w rest,
      sortMoves (([cfMoveA, cfMoveB, cfMoveC]).filter
        (isConflictCandidate "foundation_0_spades")) = w :: rest ∧
      (resolveConflicts [cfMoveA, cfMoveB, cfMoveC]).filter
        (isConflictCandidate "foundation_0_spades") = [w] ∧
      w ∈ ([cfMoveA, cfMoveB, cfMoveC]).filter
        (isConflictCandidate "foundation_0_spades") ∧
      ∀ m2 ∈ ([cfMoveA, cfMoveB, cfMoveC]).filter
        (isConflictCandidate "foundation_0_spades"),
        moveKeyLE w m2 = true :=
  ⟨(conflict_resolution_characterization [cfMoveA, cfMoveB, cfMoveC]).1
      cfMoveC (by simp) (Or.inl (by decide)),
    ((conflict_resolution_characterization
        [cfMoveA, cfMoveB, cfMoveC]).2 "foundation_0_spades").2
      (by
        rw [show ([cfMoveA, cfMoveB, cfMoveC]).filter
            (isConflictCandidate "foundation_0_spades") =
            [cfMoveA, cfMoveB] from rfl]
        exact List.cons_ne_nil _ _)⟩

/-- Invariant of the running-maximum fold in `play_turn`'s selection loop:
the threshold never decreases, every processed score is bounded by the
final threshold, and the final candidate is either inherited or a
processed move attaining the final threshold. -/
theorem selectFold_spec :
    ∀ (moves : List Move) (st : ℚ × Option Move),
      st.1 ≤ (moves.foldl
        (fun (st : ℚ × Option Move) m =>
          if m.priority + m.distance > st.1 then
            (m.priority + m.distance, some m)
          else st) st).1 ∧
      (∀ m ∈ moves, m.priority + m.distance ≤ (moves.foldl
        (fun (st : ℚ × Option Move) m =>
          if m.priority + m.distance > st.1 then
            (m.priority + m.distance, some m)
          else st) st).1) ∧
      ((moves.foldl
        (fun (st : ℚ × Option Move) m =>
          if m.priority + m.distance > st.1 then
            (m.priority + m.distance, some m)
          else st) st) = st ∨
        ∃ x ∈ moves, (moves.foldl
          (fun (st : ℚ × Option Move) m =>
            if m.priority + m.distance > st.1 then
              (m.priority + m.distance, some m)
            else st) st).2 = some x ∧
          (moves.foldl
            (fun (st : ℚ × Option Move) m =>
              if m.priority + m.distance > st.1 then
                (m.priority + m.distance, some m)
              else st) st).1 = x.priority + x.distance)
  | [], st => ⟨le_refl _, by simp, Or.inl rfl⟩
  | m :: ms, st => by
      simp only [List.foldl_cons]
      by_cases h : m.priority + m.distance > st.1
      · rw [if_pos h]
        have ih := selectFold_spec ms (m.priority + m.distance, some m)
        refine ⟨le_trans (le_of_lt h) ih.1, ?_, ?_⟩
        · intro x hx
          rcases List.mem_cons.mp hx with rfl | hx2
          · exact ih.1
          · exact ih.2.1 x hx2
        · rcases ih.2.2 with he | ⟨x, hx, h2, h3⟩
          · refine Or.inr ⟨m, List.mem_cons_self m ms, ?_, ?_⟩
            · rw [he]
            · rw [he]
          · exact Or.inr ⟨x, List.mem_cons_of_mem m hx, h2, h3⟩
      · rw [if_neg h]
        have ih := selectFold_spec ms st
        refine ⟨ih.1, ?_, ?_⟩
        · intro x hx
          rcases List.mem_cons.mp hx with rfl | hx2
          · exact le_trans (not_lt.mp h) ih.1
          · exact ih.2.1 x hx2
        · rcases ih.2.2 with he | ⟨x, hx, h2, h3⟩
          · exact Or.inl he
          · exact Or.inr ⟨x, List.mem_cons_of_mem m hx, h2, h3⟩

/-- C7: in each turn the engine selects, per player in index order, the
legal move maximizing `priority + distance` (not priority alone): when the
list is empty no candidate is contributed, and when every legal move's
combined score exceeds the `-1.0` seed (true of all generated moves), the
selected move is a member attaining the maximum combined score. -/
theorem selection_maximizes_priority_plus_distance :
    selectBest [] = none ∧
    ∀ moves : List Move,
      (∀ m ∈ moves, (-1 : ℚ) < m.priority + m.distance) →
      ((moves = [] → selectBest moves = none) ∧
        (moves ≠ [] → ∃ m, selectBest moves = some m ∧ m ∈ moves ∧
          ∀ m2 ∈ moves,
            m2.priority + m2.distance ≤ m.priority + m.distance)) := by
  refine ⟨rfl, ?_⟩
  intro moves hpos
  constructor
  · rintro rfl
    rfl
  · intro hne
    have hs := selectFold_spec moves (-1, none)
    rcases hs.2.2 with he | ⟨x, hx, h2, h3⟩
    · obtain ⟨m0, hm0⟩ := List.exists_mem_of_ne_nil moves hne
      have hb := hs.2.1 m0 hm0
      have h1 : (moves.foldl
          (fun (st : ℚ × Option Move) m =>
            if m.priority + m.distance > st.1 then
              (m.priority + m.distance, some m)
            else st) ((-1 : ℚ), (none : Option Move))).1 = -1 := by
        rw [he]
      rw [h1] at hb
      exact absurd (lt_of_lt_of_le (hpos m0 hm0) hb) (lt_irrefl _)
    · refine ⟨x, h2, hx, ?_⟩
      intro m2 hm2
      calc m2.priority + m2.distance
          ≤ (moves.foldl
            (fun (st : ℚ × Option Move) m =>
              if m.priority + m.distance > st.1 then
                (m.priority + m.distance, some m)
              else st) ((-1 : ℚ), (none : Option Move))).1 := hs.2.1 m2 hm2
        _ = x.priority + x.distance := h3

/-- Witness for C7 at a concrete two-move list with scores 2 and 1. -/
theorem selection_witness :
    ∃ m, selectBest [selMoveA, selMoveB] = some m ∧
      m ∈ [selMoveA, selMoveB] ∧
      ∀ m2 ∈ [selMoveA, selMoveB],
        m2.priority + m2.distance ≤ m.priority + m.distance :=
  ((selection_maximizes_priority_plus_distance.2 [selMoveA, selMoveB]
    (by
      intro m hm
      rcases List.mem_cons.mp hm with rfl | hm2
      · norm_num [selMoveA]
      · rw [List.mem_singleton] at hm2
        subst hm2
        norm_num [selMoveB])).2) (List.cons_ne_nil _ _)

/-- `_calculate_strategic_bonus` on a present card, rewritten as a single
conditional: the bonus is the rank-scaled amount exactly when the move is
nertz→foundation and no other foundation of the card's suit exists. -/
theorem strategicBonus_some_eq (fs : List (String × Foundation))
    (sp dp : LocationType) (c : PlayingCard) (fid : Option String) :
    strategicBonus fs sp dp (some c) fid =
      if sp = LocationType.NertzPile ∧ dp = LocationType.FoundationPile ∧
          ¬ ∃ q ∈ fs, q.2.suit = c.suit ∧ some q.2.identifier ≠ fid
      then ((rankIndex c.rank : ℚ) + 1) / 13 * 20 else 0 := by
  simp only [strategicBonus]
  by_cases hsp : sp = LocationType.NertzPile
  · rw [if_pos hsp]
    by_cases hdp : dp = LocationType.FoundationPile
    · rw [if_pos hdp]
      by_cases hex : ∃ q ∈ fs, q.2.suit = c.suit ∧ some q.2.identifier ≠ fid
      · have hany : (fs.any fun p =>
            decide (p.2.suit = c.suit ∧ some p.2.identifier ≠ fid)) = true := by
          simp only [List.any_eq_true, decide_eq_true_eq]
          exact hex
        rw [if_pos hany, if_neg (fun h => h.2.2 hex)]
      · have hany : (fs.any fun p =>
            decide (p.2.suit = c.suit ∧ some p.2.identifier ≠ fid)) = false := by
          simp only [List.any_eq_false, decide_eq_true_eq]
          intro q hq hc
          exact hex ⟨q, hq, hc⟩
        rw [hany]
        rw [if_neg (by simp), if_pos ⟨hsp, hdp, hex⟩]
    · rw [if_neg hdp, if_neg (fun h => hdp h.2.1)]
  · rw [if_neg hsp, if_neg (fun h => hsp h.1)]

/-- C8: for every constructed move,
`priority = base_weight * (1 - distance * 0.3) + strategic_bonus`; the
base weights are exactly the seven `MOVE_TYPE_WEIGHTS` entries (with 0.5
as the default for a key outside the table); the strategic bonus of a
cardless move is 0, and for a card it is nonzero exactly for a
nertz→foundation move whose target suit has no other foundation of the
same suit in play, in which case it equals `(rank_index+1)/13 * 20`. -/
theorem priority_formula_and_strategic_bonus :
    (∀ (fs : List (String × Foundation)) (p : Nat) (sp dp : LocationType)
        (c : Option PlayingCard) (d : ℚ) (mt : MoveType)
        (fid : Option String) (rs rd : Option Nat),
      (mkMove fs p sp dp c d mt fid rs rd).priority =
        moveTypeWeight mt * (1 - d * (3/10)) +
          strategicBonus fs sp dp c fid) ∧
    (moveTypeWeight .NERTZ_TO_FOUNDATION = 1 ∧
      moveTypeWeight .NERTZ_TO_RIVER = 9/10 ∧
      moveTypeWeight .RIVER_TO_FOUNDATION = 1/2 ∧
      moveTypeWeight .DECK_TO_FOUNDATION = 2/5 ∧
      moveTypeWeight .DECK_TO_RIVER = 3/10 ∧
      moveTypeWeight .RIVER_TO_RIVER = 3/10 ∧
      moveTypeWeight .DECK_TO_DECK = 1/10) ∧
    (∀ (fs : List (String × Foundation)) (sp dp : LocationType)
        (fid : Option String),
      strategicBonus fs sp dp none fid = 0) ∧
    (∀ (fs : List (String × Foundation)) (sp dp : LocationType)
        (c : PlayingCard) (fid : Option String),
      (strategicBonus fs sp dp (some c) fid ≠ 0 ↔
        sp = LocationType.NertzPile ∧ dp = LocationType.FoundationPile ∧
          ¬ ∃ q ∈ fs, q.2.suit = c.suit ∧ some q.2.identifier ≠ fid) ∧
      (sp = LocationType.NertzPile → dp = LocationType.FoundationPile →
        (¬ ∃ q ∈ fs, q.2.suit = c.suit ∧ some q.2.identifier ≠ fid) →
        strategicBonus fs sp dp (some c) fid =
          ((rankIndex c.rank : ℚ) + 1) / 13 * 20)) := by
  refine ⟨fun fs p sp dp c d mt fid rs rd => rfl,
    ⟨rfl, rfl, rfl, rfl, rfl, rfl, rfl⟩, fun fs sp dp fid => rfl, ?_⟩
  intro fs sp dp c fid
  have hpos : (0 : ℚ) < ((rankIndex c.rank : ℚ) + 1) / 13 * 20 := by
    positivity
  rw [strategicBonus_some_eq]
  constructor
  · by_cases hcond : sp = LocationType.NertzPile ∧
        dp = LocationType.FoundationPile ∧
        ¬ ∃ q ∈ fs, q.2.suit = c.suit ∧ some q.2.identifier ≠ fid
    · rw [if_pos hcond]
      exact ⟨fun _ => hcond, fun _ => ne_of_gt hpos⟩
    · rw [if_neg hcond]
      exact ⟨fun h => absurd rfl h, fun h => absurd h hcond⟩
  · intro h1 h2 h3
    rw [if_pos ⟨h1, h2, h3⟩]

/-- Witness for C8 at a concrete nertz→foundation Ace move with no
competing foundation. -/
theorem priority_formula_witness :
    strategicBonus [] LocationType.NertzPile LocationType.FoundationPile
        (some wAce) (some "foundation_0_spades") =
      ((rankIndex wAce.rank : ℚ) + 1) / 13 * 20 :=
  (priority_formula_and_strategic_bonus.2.2.2 [] LocationType.NertzPile
      LocationType.FoundationPile wAce (some "foundation_0_spades")).2
    rfl rfl (by simp)

/-- C9 (amended): `top_nertz_card` returns `None` on an empty pile;
`river_slot_top_cards` keeps one entry per slot and yields `None` for an
empty slot; `top_stream_cards(count)` raises exactly when the stream holds
fewer than `count` cards; for `count ≥ 1` it returns the top `count`
cards, but at `count = 0` the `stream[-0:]` slice returns the ENTIRE
stream (`None` entries dropped), not the top 0 cards. -/
theorem pile_accessor_empty_behavior :
    topNertzCardOpt [] = none ∧
    (∀ slots : List (List (Option PlayingCard)),
      (riverSlotTopCards slots).length = slots.length ∧
      ∀ i, slots.get? i = some [] →
        (riverSlotTopCards slots).get? i = some none) ∧
    (∀ (count : Nat) (stream : List (Option PlayingCard)),
      (∃ e, topStreamCards count stream = .error e) ↔
        stream.length < count) ∧
    (∀ (count : Nat) (l : List PlayingCard),
      1 ≤ count → count ≤ l.length →
      topStreamCards count (l.map some) =
        .ok (l.drop (l.length - count))) ∧
    (∀ stream : List (Option PlayingCard),
      topStreamCards 0 stream = .ok (stream.filterMap id)) := by
  refine ⟨rfl, ?_, ?_, ?_, ?_⟩
  · intro slots
    refine ⟨by simp [riverSlotTopCards], ?_⟩
    intro i hi
    simp only [riverSlotTopCards, List.get?_map, hi]
    rfl
  · intro count stream
    constructor
    · rintro ⟨e, he⟩
      by_contra hlt
      simp only [topStreamCards, if_neg hlt] at he
      exact Except.noConfusion he
    · intro h
      refine ⟨"Not enough cards in stream", ?_⟩
      simp only [topStreamCards, if_pos h]
  · intro count l h1 h
    have hmap : ∀ xs : List PlayingCard, (xs.map some).filterMap id = xs := by
      intro xs
      induction xs with
      | nil => rfl
      | cons a t ih => simp [ih]
    have hlt : ¬ l.length < count := by
      omega
    simp only [topStreamCards, List.length_map]
    rw [if_neg hlt, if_neg (by omega), ← List.map_drop, hmap]
  · intro stream
    simp [topStreamCards]

/-- Witness for C9: the top-1 query on a one-card stream. -/
theorem pile_accessor_witness :
    topStreamCards 1 ([wAce].map some) =
      .ok ([wAce].drop (([wAce] : List PlayingCard).length - 1)) :=
  pile_accessor_empty_behavior.2.2.2.1 1 [wAce] (by decide) (by decide)

/-- C9 counterexample to the unamended claim: `top_stream_cards(0)` on a
one-card stream does not return the top 0 cards (the empty list) — the
`stream[-0:]` slice yields the whole stream. -/
theorem top_zero_returns_whole_stream :
    topStreamCards 0 [some wAce] = .ok [wAce] ∧
      ([wAce] : List PlayingCard) ≠ [] :=
  ⟨rfl, by simp⟩

/-- `find?` over `range 4` is `none` exactly when no index below 4
satisfies the predicate. -/
theorem find?_range4_none (f : Nat → Bool) :
    (List.range 4).find? f = none ↔ ∀ i < 4, f i = false := by
  rw [List.find?_eq_none]
  constructor
  · intro h i hi
    have h2 := h i (List.mem_range.mpr hi)
    rwa [Bool.not_eq_true] at h2
  · intro h x hx
    rw [Bool.not_eq_true]
    exact h x (List.mem_range.mp hx)

/-- `find?` over `range 4` returns the least index below 4 satisfying the
predicate. -/
theorem find?_range4_some (f : Nat → Bool) (i : Nat)
    (h : (List.range 4).find? f = some i) :
    i < 4 ∧ f i = true ∧ ∀ j < i, f j = false := by
  have hr : List.range 4 = [0, 1, 2, 3] := rfl
  rw [hr] at h
  by_cases h0 : f 0 = true
  · rw [List.find?_cons_of_pos _ h0] at h
    obtain rfl : (0 : Nat) = i := Option.some.inj h
    exact ⟨by omega, h0, fun j hj => absurd hj (Nat.not_lt_zero j)⟩
  · rw [List.find?_cons_of_neg _ h0] at h
    rw [Bool.not_eq_true] at h0
    by_cases h1 : f 1 = true
    · rw [List.find?_cons_of_pos _ h1] at h
      obtain rfl : (1 : Nat) = i := Option.some.inj h
      refine ⟨by omega, h1, ?_⟩
      intro j hj
      interval_cases j
      exact h0
    · rw [List.find?_cons_of_neg _ h1] at h
      rw [Bool.not_eq_true] at h1
      by_cases h2 : f 2 = true
      · rw [List.find?_cons_of_pos _ h2] at h
        obtain rfl : (2 : Nat) = i := Option.some.inj h
        refine ⟨by omega, h2, ?_⟩
        intro j hj
        interval_cases j
        · exact h0
        · exact h1
      · rw [List.find?_cons_of_neg _ h2] at h
        rw [Bool.not_eq_true] at h2
        by_cases h3 : f 3 = true
        · rw [List.find?_cons_of_pos _ h3] at h
          obtain rfl : (3 : Nat) = i := Option.some.inj h
          refine ⟨by omega, h3, ?_⟩
          intro j hj
          interval_cases j
          · exact h0
          · exact h1
          · exact h2
        · rw [List.find?_cons_of_neg _ h3] at h
          exact absurd h (by simp)

/-- C10: `generate_river_move` (for a nertz or deck source card) scans the
four river slots in ascending index order: it returns no move exactly when
no slot qualifies, and otherwise a move into the first qualifying slot —
an empty lower-indexed slot wins even if a later slot would accept the
card. -/
theorem river_move_targets_first_qualifying_slot
    {gs : GameState} {p : Nat} {pl : PlayerState} (card : PlayingCard)
    (sp : LocationType) (hp : gs.players.get? p = some pl)
    (hsp : sp ≠ LocationType.RiverPile) :
    (generateRiverMove gs p card sp = .ok none ↔
      ∀ i < 4,
        riverSlotQualifies pl.deck.cards_in_river card i = false) ∧
    (∀ m, generateRiverMove gs p card sp = .ok (some m) →
      ∃ i, i < 4 ∧
        riverSlotQualifies pl.deck.cards_in_river card i = true ∧
        (∀ j < i,
          riverSlotQualifies pl.deck.cards_in_river card j = false) ∧
        m.river_slot_destination = some i ∧
        m.destination_pile = LocationType.RiverPile ∧
        m.card = some card ∧ m.player_index = p ∧ m.source_pile = sp) := by
  have hgp : getPlayer gs p = .ok pl := by
    simp only [getPlayer, hp]
  have hgen : generateRiverMove gs p card sp =
      .ok (((List.range 4).find?
          (riverSlotQualifies pl.deck.cards_in_river card)).map
        fun i => mkMove gs.foundations p sp .RiverPile (some card) 0
          (if sp = .DeckPile then MoveType.DECK_TO_RIVER
           else MoveType.NERTZ_TO_RIVER) none none (some i)) := by
    unfold generateRiverMove
    rw [if_neg hsp]
    simp only [hgp]
  constructor
  · rw [hgen]
    constructor
    · intro h
      have hnone : ((List.range 4).find?
          (riverSlotQualifies pl.deck.cards_in_river card)) = none :=
        Option.map_eq_none'.mp (Except.ok.inj h)
      exact (find?_range4_none _).mp hnone
    · intro h
      rw [(find?_range4_none _).mpr h]
      rfl
  · intro m hm
    rw [hgen] at hm
    rcases Option.map_eq_some'.mp (Except.ok.inj hm) with ⟨i, hfind, hmk⟩
    obtain ⟨hi4, hq, hfirst⟩ := find?_range4_some _ i hfind
    refine ⟨i, hi4, hq, hfirst, ?_, ?_, ?_, ?_, ?_⟩ <;> rw [← hmk] <;> rfl

/-- Witness for C10: on a state whose river slots are all empty, the
generated nertz→river move targets slot 0. -/
theorem river_move_first_slot_witness :
    ∃ i, i < 4 ∧
      riverSlotQualifies wPlayer.deck.cards_in_river c5card i = true ∧
      (∀ j < i,
        riverSlotQualifies wPlayer.deck.cards_in_river c5card j = false) ∧
      wRiverMove.river_slot_destination = some i ∧
      wRiverMove.destination_pile = LocationType.RiverPile ∧
      wRiverMove.card = some c5card ∧ wRiverMove.player_index = 0 ∧
      wRiverMove.source_pile = LocationType.NertzPile :=
  (@river_move_targets_first_qualifying_slot wGS 0 wPlayer c5card
      LocationType.NertzPile rfl (by decide)).2 wRiverMove rfl

end Nertz
